import Mathlib

/-!
Verification of the RT repository's geometry and signal-compositing pipeline.

The definitions below are shallow embeddings of the Python source:
* `polygon_to_mesh`, `meshFaces`, `parse_height` from osm2xml.py (and demo.py),
* the clipping loop of osm2xml.process_single_file,
* the signal compositor of RSSOverlay.py and the building mask of RT.py.

Planar points are rational pairs; linear power values are real numbers
(the source computes with floats; we model its arithmetic exactly over ℝ/ℚ).
-/

namespace RT

/-! ## Solid Extruder (osm2xml.py, polygon_to_mesh) -/

/-- Floor-cap fan triangles: the source emits [0, i+1, i] for i = 1 .. N-2
(loop: for i in range(1, N - 1): faces.append([0, i + 1, i])),
re-indexed here with k = i - 1. -/
def bottomFaces (N : ℕ) : List (ℕ × ℕ × ℕ) :=
  (List.range (N - 2)).map fun k => (0, k + 2, k + 1)

/-- Roof-cap fan triangles: the source emits [N, N+i, N+i+1] for i = 1 .. N-2. -/
def topFaces (N : ℕ) : List (ℕ × ℕ × ℕ) :=
  (List.range (N - 2)).map fun k => (N, N + k + 1, N + k + 2)

/-- Side-wall triangles: for each i < N with j = (i+1) % N the source emits
[i, j, N+j] and [i, N+j, N+i]. -/
def sideFaces (N : ℕ) : List (ℕ × ℕ × ℕ) :=
  (List.range N).flatMap fun i =>
    [(i, (i + 1) % N, N + (i + 1) % N), (i, N + (i + 1) % N, N + i)]

/-- The full face list of the extruded solid, in source emission order. -/
def meshFaces (N : ℕ) : List (ℕ × ℕ × ℕ) :=
  bottomFaces N ++ topFaces N ++ sideFaces N

/-- A triangular mesh: 3D vertices plus index-triple faces, as built by
trimesh.Trimesh(vertices=..., faces=...) in the source. -/
structure Mesh where
  vertices : List (ℚ × ℚ × ℚ)
  faces : List (ℕ × ℕ × ℕ)
deriving DecidableEq

/-- osm2xml.py / demo.py polygon_to_mesh: returns None for rings of fewer
than 3 vertices; otherwise stacks the N floor vertices (z = 0) ahead of the
N roof vertices (z = height) and emits the cap and wall triangles. -/
def polygon_to_mesh (ring : List (ℚ × ℚ)) (height : ℚ) : Option Mesh :=
  if ring.length < 3 then none
  else some
    { vertices :=
        ring.map (fun p => (p.1, p.2, (0 : ℚ))) ++
        ring.map (fun p => (p.1, p.2, height))
      faces := meshFaces ring.length }

/-- The unit-square ring of spec Scenario A. -/
def unitSquareRing : List (ℚ × ℚ) := [(0, 0), (1, 0), (1, 1), (0, 1)]

theorem sideFaces_length (N : ℕ) : (sideFaces N).length = 2 * N := by
  have h : (List.length ∘ fun i =>
      [(i, (i + 1) % N, N + (i + 1) % N), (i, N + (i + 1) % N, N + i)]) = fun _ : ℕ => 2 := rfl
  simp only [sideFaces, List.length_flatMap, h, List.map_const', List.sum_replicate,
    List.length_range, smul_eq_mul]
  omega

theorem meshFaces_length (N : ℕ) (hN : 3 ≤ N) :
    (meshFaces N).length = 2 * (N - 2) + 2 * N := by
  simp only [meshFaces, List.length_append, bottomFaces, topFaces, List.length_map,
    List.length_range, sideFaces_length]
  omega

/-- C1. For every ring of N ≥ 3 planar vertices and height h, the extruder
produces a mesh with exactly 2N vertices — the N floor vertices at z = 0 at
indices 0..N-1 followed by the N roof vertices at z = h at indices N..2N-1,
in input ring order — and exactly 2(N-2)+2N triangular faces; in particular
the unit-square ring with height 10 yields 8 vertices and 12 faces. -/
theorem extruder_mesh_counts (ring : List (ℚ × ℚ)) (height : ℚ) (N : ℕ)
    (hlen : ring.length = N) (hN : 3 ≤ N) :
    ∃ m : Mesh, polygon_to_mesh ring height = some m ∧
      m.vertices.length = 2 * N ∧
      (∀ k, k < N → m.vertices[k]? = ring[k]?.map (fun p => (p.1, p.2, (0 : ℚ)))) ∧
      (∀ k, k < N → m.vertices[N + k]? = ring[k]?.map (fun p => (p.1, p.2, height))) ∧
      m.faces.length = 2 * (N - 2) + 2 * N ∧
      (polygon_to_mesh unitSquareRing 10).map
        (fun m' => (m'.vertices.length, m'.faces.length)) = some (8, 12) := by
  subst hlen
  refine ⟨{ vertices := ring.map (fun p => (p.1, p.2, (0 : ℚ))) ++
      ring.map (fun p => (p.1, p.2, height)), faces := meshFaces ring.length },
    ?_, ?_, ?_, ?_, ?_, ?_⟩
  · unfold polygon_to_mesh
    rw [if_neg (by omega)]
  · simp only [List.length_append, List.length_map]
    omega
  · intro k hk
    rw [List.getElem?_append]
    simp [hk]
  · intro k hk
    rw [List.getElem?_append]
    simp
  · exact meshFaces_length _ hN
  · rfl

/-- Witness for C1 at the concrete Scenario A input (unit square, height 10). -/
theorem extruder_mesh_counts_witness :
    (polygon_to_mesh unitSquareRing 10).map
      (fun m' => (m'.vertices.length, m'.faces.length)) = some (8, 12) := by
  obtain ⟨m, -, -, -, -, -, hs⟩ :=
    extruder_mesh_counts unitSquareRing 10 4 rfl (by norm_num)
  exact hs



/-- The three directed edges of a triangle, in winding order. -/
def triSlots (t : ℕ × ℕ × ℕ) : List (ℕ × ℕ) :=
  [(t.1, t.2.1), (t.2.1, t.2.2), (t.2.2, t.1)]

/-- Directed edge list of the whole face list. -/
def dedges (N : ℕ) : List (ℕ × ℕ) := (meshFaces N).flatMap triSlots

/-- Whether triangle t contains the undirected edge e. -/
def triHasEdge (t : ℕ × ℕ × ℕ) (e : ℕ × ℕ) : Bool :=
  (triSlots t).any fun s => s == e || s == (e.2, e.1)

/-- Occurrences of the undirected edge (a,b) among the directed edges. -/
def ucount (N : ℕ) (a b : ℕ) : ℕ :=
  (dedges N).count (a, b) + (dedges N).count (b, a)

-- generic counting helpers --------------------------------------------------

theorem count_map_range_eq_one (m : ℕ) (f : ℕ → ℕ × ℕ) (d : ℕ × ℕ) (k₀ : ℕ)
    (hk : k₀ < m) (hf : f k₀ = d) (hu : ∀ k, k < m → f k = d → k = k₀) :
    ((List.range m).map f).count d = 1 := by
  induction m with
  | zero => omega
  | succ n ih =>
      rw [List.range_succ, List.map_append, List.count_append]
      by_cases hn : k₀ = n
      · subst hn
        have h0 : ((List.range k₀).map f).count d = 0 := by
          rw [List.count_eq_zero]
          intro hmem
          obtain ⟨k, hk', hfk⟩ := List.mem_map.mp hmem
          have hkk := hu k (by simp only [List.mem_range] at hk'; omega) hfk
          simp only [List.mem_range] at hk'
          omega
        simp [h0, hf]
      · have hk' : k₀ < n := by omega
        have hfn : f n ≠ d := fun h => hn (hu n (by omega) h).symm
        rw [ih hk' (fun k hkn hfk => hu k (by omega) hfk)]
        simp [List.count_cons, hfn]

theorem count_map_range_eq_zero (m : ℕ) (f : ℕ → ℕ × ℕ) (d : ℕ × ℕ)
    (h : ∀ k, k < m → f k ≠ d) :
    ((List.range m).map f).count d = 0 := by
  rw [List.count_eq_zero]
  intro hmem
  obtain ⟨k, hk', hfk⟩ := List.mem_map.mp hmem
  exact h k (List.mem_range.mp hk') hfk

theorem succ_mod (N i : ℕ) (h : i < N) :
    (i + 1) % N = if i + 1 = N then 0 else i + 1 := by
  split_ifs with h'
  · simp [h']
  · exact Nat.mod_eq_of_lt (by omega)

def famB1 (N : ℕ) : List (ℕ × ℕ) := (List.range (N - 2)).map fun k => ((0 : ℕ), k + 2)
def famB2 (N : ℕ) : List (ℕ × ℕ) := (List.range (N - 2)).map fun k => (k + 2, k + 1)
def famB3 (N : ℕ) : List (ℕ × ℕ) := (List.range (N - 2)).map fun k => (k + 1, (0 : ℕ))
def famT1 (N : ℕ) : List (ℕ × ℕ) := (List.range (N - 2)).map fun k => (N, N + k + 1)
def famT2 (N : ℕ) : List (ℕ × ℕ) := (List.range (N - 2)).map fun k => (N + k + 1, N + k + 2)
def famT3 (N : ℕ) : List (ℕ × ℕ) := (List.range (N - 2)).map fun k => (N + k + 2, N)
def famS1 (N : ℕ) : List (ℕ × ℕ) := (List.range N).map fun i => (i, (i + 1) % N)
def famS2 (N : ℕ) : List (ℕ × ℕ) := (List.range N).map fun i => ((i + 1) % N, N + (i + 1) % N)
def famS3 (N : ℕ) : List (ℕ × ℕ) := (List.range N).map fun i => (N + (i + 1) % N, i)
def famS4 (N : ℕ) : List (ℕ × ℕ) := (List.range N).map fun i => (i, N + (i + 1) % N)
def famS5 (N : ℕ) : List (ℕ × ℕ) := (List.range N).map fun i => (N + (i + 1) % N, N + i)
def famS6 (N : ℕ) : List (ℕ × ℕ) := (List.range N).map fun i => (N + i, i)

theorem count_flatMap_three (m : ℕ) (f g h : ℕ → ℕ × ℕ) (d : ℕ × ℕ) :
    ((List.range m).flatMap fun k => [f k, g k, h k]).count d =
      ((List.range m).map f).count d + ((List.range m).map g).count d +
        ((List.range m).map h).count d := by
  induction m with
  | zero => rfl
  | succ n ih =>
      rw [List.range_succ, List.flatMap_append, List.count_append,
        List.map_append, List.map_append, List.map_append,
        List.count_append, List.count_append, List.count_append, ih]
      simp only [List.flatMap_cons, List.flatMap_nil, List.append_nil,
        List.map_cons, List.map_nil, List.count_cons, List.count_nil]
      ring

theorem count_flatMap_six (m : ℕ) (f1 f2 f3 f4 f5 f6 : ℕ → ℕ × ℕ) (d : ℕ × ℕ) :
    List.count d ((List.range m).flatMap fun k => [f1 k, f2 k, f3 k, f4 k, f5 k, f6 k]) =
      List.count d ((List.range m).map f1) + List.count d ((List.range m).map f2) +
      List.count d ((List.range m).map f3) + List.count d ((List.range m).map f4) +
      List.count d ((List.range m).map f5) + List.count d ((List.range m).map f6) := by
  induction m with
  | zero => rfl
  | succ n ih =>
      rw [List.range_succ, List.flatMap_append, List.count_append,
        List.map_append, List.map_append, List.map_append,
        List.map_append, List.map_append, List.map_append,
        List.count_append, List.count_append, List.count_append,
        List.count_append, List.count_append, List.count_append, ih]
      simp only [List.flatMap_cons, List.flatMap_nil, List.append_nil,
        List.map_cons, List.map_nil, List.count_cons, List.count_nil]
      ring

theorem count_dedges (N : ℕ) (d : ℕ × ℕ) :
    List.count d (dedges N) =
      List.count d (famB1 N) + List.count d (famB2 N) + List.count d (famB3 N) +
      List.count d (famT1 N) + List.count d (famT2 N) + List.count d (famT3 N) +
      List.count d (famS1 N) + List.count d (famS2 N) + List.count d (famS3 N) +
      List.count d (famS4 N) + List.count d (famS5 N) + List.count d (famS6 N) := by
  have hb : (bottomFaces N).flatMap triSlots =
      (List.range (N - 2)).flatMap fun k => [((0 : ℕ), k + 2), (k + 2, k + 1), (k + 1, (0 : ℕ))] := by
    rw [bottomFaces, List.flatMap_map]
    rfl
  have ht : (topFaces N).flatMap triSlots =
      (List.range (N - 2)).flatMap fun k => [(N, N + k + 1), (N + k + 1, N + k + 2), (N + k + 2, N)] := by
    rw [topFaces, List.flatMap_map]
    rfl
  have hs : (sideFaces N).flatMap triSlots =
      (List.range N).flatMap fun i =>
        [(i, (i + 1) % N), ((i + 1) % N, N + (i + 1) % N), (N + (i + 1) % N, i),
         (i, N + (i + 1) % N), (N + (i + 1) % N, N + i), (N + i, i)] := by
    rw [sideFaces, List.flatMap_assoc]
    rfl
  rw [dedges, meshFaces, List.flatMap_append, List.flatMap_append,
    List.count_append, List.count_append, hb, ht, hs,
    count_flatMap_three, count_flatMap_three, count_flatMap_six]
  rw [famB1, famB2, famB3, famT1, famT2, famT3, famS1, famS2, famS3, famS4, famS5, famS6]
  ring

theorem famB1_pos (N a b k : ℕ) (hk : k < N - 2) (ha : a = 0) (hb : b = k + 2) :
    List.count (a, b) (famB1 N) = 1 := by
  rw [famB1]
  exact count_map_range_eq_one _ _ _ k hk (by simp only [Prod.mk.injEq]; omega)
    (by intro k' hk' h; simp only [Prod.mk.injEq] at h; omega)

theorem famB1_ne (N a b : ℕ) (h : ∀ k, k < N - 2 → ¬(a = 0 ∧ b = k + 2)) :
    List.count (a, b) (famB1 N) = 0 := by
  rw [famB1]
  exact count_map_range_eq_zero _ _ _
    (by intro k hk hf; simp only [Prod.mk.injEq] at hf; exact h k hk (by omega))

theorem famB2_pos (N a b k : ℕ) (hk : k < N - 2) (ha : a = k + 2) (hb : b = k + 1) :
    List.count (a, b) (famB2 N) = 1 := by
  rw [famB2]
  exact count_map_range_eq_one _ _ _ k hk (by simp only [Prod.mk.injEq]; omega)
    (by intro k' hk' h; simp only [Prod.mk.injEq] at h; omega)

theorem famB2_ne (N a b : ℕ) (h : ∀ k, k < N - 2 → ¬(a = k + 2 ∧ b = k + 1)) :
    List.count (a, b) (famB2 N) = 0 := by
  rw [famB2]
  exact count_map_range_eq_zero _ _ _
    (by intro k hk hf; simp only [Prod.mk.injEq] at hf; exact h k hk (by omega))

theorem famB3_pos (N a b k : ℕ) (hk : k < N - 2) (ha : a = k + 1) (hb : b = 0) :
    List.count (a, b) (famB3 N) = 1 := by
  rw [famB3]
  exact count_map_range_eq_one _ _ _ k hk (by simp only [Prod.mk.injEq]; omega)
    (by intro k' hk' h; simp only [Prod.mk.injEq] at h; omega)

theorem famB3_ne (N a b : ℕ) (h : ∀ k, k < N - 2 → ¬(a = k + 1 ∧ b = 0)) :
    List.count (a, b) (famB3 N) = 0 := by
  rw [famB3]
  exact count_map_range_eq_zero _ _ _
    (by intro k hk hf; simp only [Prod.mk.injEq] at hf; exact h k hk (by omega))

theorem famT1_pos (N a b k : ℕ) (hk : k < N - 2) (ha : a = N) (hb : b = N + k + 1) :
    List.count (a, b) (famT1 N) = 1 := by
  rw [famT1]
  exact count_map_range_eq_one _ _ _ k hk (by simp only [Prod.mk.injEq]; omega)
    (by intro k' hk' h; simp only [Prod.mk.injEq] at h; omega)

theorem famT1_ne (N a b : ℕ) (h : ∀ k, k < N - 2 → ¬(a = N ∧ b = N + k + 1)) :
    List.count (a, b) (famT1 N) = 0 := by
  rw [famT1]
  exact count_map_range_eq_zero _ _ _
    (by intro k hk hf; simp only [Prod.mk.injEq] at hf; exact h k hk (by omega))

theorem famT2_pos (N a b k : ℕ) (hk : k < N - 2) (ha : a = N + k + 1) (hb : b = N + k + 2) :
    List.count (a, b) (famT2 N) = 1 := by
  rw [famT2]
  exact count_map_range_eq_one _ _ _ k hk (by simp only [Prod.mk.injEq]; omega)
    (by intro k' hk' h; simp only [Prod.mk.injEq] at h; omega)

theorem famT2_ne (N a b : ℕ) (h : ∀ k, k < N - 2 → ¬(a = N + k + 1 ∧ b = N + k + 2)) :
    List.count (a, b) (famT2 N) = 0 := by
  rw [famT2]
  exact count_map_range_eq_zero _ _ _
    (by intro k hk hf; simp only [Prod.mk.injEq] at hf; exact h k hk (by omega))

theorem famT3_pos (N a b k : ℕ) (hk : k < N - 2) (ha : a = N + k + 2) (hb : b = N) :
    List.count (a, b) (famT3 N) = 1 := by
  rw [famT3]
  exact count_map_range_eq_one _ _ _ k hk (by simp only [Prod.mk.injEq]; omega)
    (by intro k' hk' h; simp only [Prod.mk.injEq] at h; omega)

theorem famT3_ne (N a b : ℕ) (h : ∀ k, k < N - 2 → ¬(a = N + k + 2 ∧ b = N)) :
    List.count (a, b) (famT3 N) = 0 := by
  rw [famT3]
  exact count_map_range_eq_zero _ _ _
    (by intro k hk hf; simp only [Prod.mk.injEq] at hf; exact h k hk (by omega))

theorem famS1_pos (N a b i : ℕ) (hi : i < N)
    (ha : a = i) (hb : (i + 1 < N ∧ b = i + 1) ∨ (i + 1 = N ∧ b = 0)) :
    List.count (a, b) (famS1 N) = 1 := by
  rw [famS1]
  refine count_map_range_eq_one _ _ _ i hi ?_ ?_
  · simp only [Prod.mk.injEq]
    refine ⟨by omega, ?_⟩
    rw [succ_mod N i hi]
    rcases hb with ⟨h1, h2⟩ | ⟨h1, h2⟩
    · rw [if_neg (by omega)]; omega
    · rw [if_pos h1]; omega
  · intro k hk h
    simp only [Prod.mk.injEq] at h
    omega

theorem famS1_ne (N a b : ℕ) (h1 : ∀ i, i + 1 < N → ¬(a = i ∧ b = i + 1))
    (h2 : ¬(0 < N ∧ a = N - 1 ∧ b = 0)) :
    List.count (a, b) (famS1 N) = 0 := by
  rw [famS1]
  refine count_map_range_eq_zero _ _ _ ?_
  intro k hk hf
  simp only [Prod.mk.injEq] at hf
  rw [succ_mod N k hk] at hf
  by_cases hkN : k + 1 = N
  · rw [if_pos hkN] at hf
    exact h2 ⟨by omega, by omega, by omega⟩
  · rw [if_neg hkN] at hf
    exact h1 k (by omega) ⟨by omega, by omega⟩

theorem famS2_pos (N a b j : ℕ) (hj : j < N) (ha : a = j) (hb : b = N + j) :
    List.count (a, b) (famS2 N) = 1 := by
  rw [famS2]
  have key : ∀ k, k < N → (k + 1) % N = j → ((k + 1 = N ∧ j = 0) ∨ (k + 1 < N ∧ k + 1 = j)) := by
    intro k hk
    rw [succ_mod N k hk]
    split_ifs with h
    · omega
    · omega
  rcases Nat.eq_zero_or_pos j with hj0 | hj0
  · refine count_map_range_eq_one _ _ _ (N - 1) (by omega) ?_ ?_
    · have h0 : (N - 1 + 1) % N = j := by
        rw [succ_mod N (N - 1) (by omega), if_pos (by omega)]
        omega
      simp only [Prod.mk.injEq, h0]
      omega
    · intro k hk h
      simp only [Prod.mk.injEq] at h
      have hd := key k hk (by omega)
      omega
  · refine count_map_range_eq_one _ _ _ (j - 1) (by omega) ?_ ?_
    · have h0 : (j - 1 + 1) % N = j := by
        rw [succ_mod N (j - 1) (by omega), if_neg (by omega)]
        omega
      simp only [Prod.mk.injEq, h0]
      omega
    · intro k hk h
      simp only [Prod.mk.injEq] at h
      have hd := key k hk (by omega)
      omega

theorem famS2_ne (N a b : ℕ) (h : ∀ j, j < N → ¬(a = j ∧ b = N + j)) :
    List.count (a, b) (famS2 N) = 0 := by
  rw [famS2]
  refine count_map_range_eq_zero _ _ _ ?_
  intro k hk hf
  simp only [Prod.mk.injEq] at hf
  have hlt : (k + 1) % N < N := Nat.mod_lt _ (by omega)
  exact h ((k + 1) % N) hlt ⟨by omega, by omega⟩

theorem famS3_pos (N a b i : ℕ) (hi : i < N) (hb : b = i)
    (ha : (i + 1 < N ∧ a = N + i + 1) ∨ (i + 1 = N ∧ a = N)) :
    List.count (a, b) (famS3 N) = 1 := by
  rw [famS3]
  refine count_map_range_eq_one _ _ _ i hi ?_ ?_
  · simp only [Prod.mk.injEq]
    refine ⟨?_, by omega⟩
    rw [succ_mod N i hi]
    rcases ha with ⟨h1, h2⟩ | ⟨h1, h2⟩
    · rw [if_neg (by omega)]; omega
    · rw [if_pos h1]; omega
  · intro k hk h
    simp only [Prod.mk.injEq] at h
    omega

theorem famS3_ne (N a b : ℕ) (h1 : ∀ i, i + 1 < N → ¬(a = N + i + 1 ∧ b = i))
    (h2 : ¬(0 < N ∧ a = N ∧ b = N - 1)) :
    List.count (a, b) (famS3 N) = 0 := by
  rw [famS3]
  refine count_map_range_eq_zero _ _ _ ?_
  intro k hk hf
  simp only [Prod.mk.injEq] at hf
  rw [succ_mod N k hk] at hf
  by_cases hkN : k + 1 = N
  · rw [if_pos hkN] at hf
    exact h2 ⟨by omega, by omega, by omega⟩
  · rw [if_neg hkN] at hf
    exact h1 k (by omega) ⟨by omega, by omega⟩

theorem famS4_pos (N a b i : ℕ) (hi : i < N) (ha : a = i)
    (hb : (i + 1 < N ∧ b = N + i + 1) ∨ (i + 1 = N ∧ b = N)) :
    List.count (a, b) (famS4 N) = 1 := by
  rw [famS4]
  refine count_map_range_eq_one _ _ _ i hi ?_ ?_
  · simp only [Prod.mk.injEq]
    refine ⟨by omega, ?_⟩
    rw [succ_mod N i hi]
    rcases hb with ⟨h1, h2⟩ | ⟨h1, h2⟩
    · rw [if_neg (by omega)]; omega
    · rw [if_pos h1]; omega
  · intro k hk h
    simp only [Prod.mk.injEq] at h
    omega

theorem famS4_ne (N a b : ℕ) (h1 : ∀ i, i + 1 < N → ¬(a = i ∧ b = N + i + 1))
    (h2 : ¬(0 < N ∧ a = N - 1 ∧ b = N)) :
    List.count (a, b) (famS4 N) = 0 := by
  rw [famS4]
  refine count_map_range_eq_zero _ _ _ ?_
  intro k hk hf
  simp only [Prod.mk.injEq] at hf
  rw [succ_mod N k hk] at hf
  by_cases hkN : k + 1 = N
  · rw [if_pos hkN] at hf
    exact h2 ⟨by omega, by omega, by omega⟩
  · rw [if_neg hkN] at hf
    exact h1 k (by omega) ⟨by omega, by omega⟩

theorem famS5_pos (N a b i : ℕ) (hi : i < N) (hb : b = N + i)
    (ha : (i + 1 < N ∧ a = N + i + 1) ∨ (i + 1 = N ∧ a = N)) :
    List.count (a, b) (famS5 N) = 1 := by
  rw [famS5]
  refine count_map_range_eq_one _ _ _ i hi ?_ ?_
  · simp only [Prod.mk.injEq]
    refine ⟨?_, by omega⟩
    rw [succ_mod N i hi]
    rcases ha with ⟨h1, h2⟩ | ⟨h1, h2⟩
    · rw [if_neg (by omega)]; omega
    · rw [if_pos h1]; omega
  · intro k hk h
    simp only [Prod.mk.injEq] at h
    omega

theorem famS5_ne (N a b : ℕ) (h1 : ∀ i, i + 1 < N → ¬(a = N + i + 1 ∧ b = N + i))
    (h2 : ¬(0 < N ∧ a = N ∧ b = N + (N - 1))) :
    List.count (a, b) (famS5 N) = 0 := by
  rw [famS5]
  refine count_map_range_eq_zero _ _ _ ?_
  intro k hk hf
  simp only [Prod.mk.injEq] at hf
  rw [succ_mod N k hk] at hf
  by_cases hkN : k + 1 = N
  · rw [if_pos hkN] at hf
    exact h2 ⟨by omega, by omega, by omega⟩
  · rw [if_neg hkN] at hf
    exact h1 k (by omega) ⟨by omega, by omega⟩

theorem famS6_pos (N a b i : ℕ) (hi : i < N) (ha : a = N + i) (hb : b = i) :
    List.count (a, b) (famS6 N) = 1 := by
  rw [famS6]
  exact count_map_range_eq_one _ _ _ i hi (by simp only [Prod.mk.injEq]; omega)
    (by intro k hk h; simp only [Prod.mk.injEq] at h; omega)

theorem famS6_ne (N a b : ℕ) (h : ∀ i, i < N → ¬(a = N + i ∧ b = i)) :
    List.count (a, b) (famS6 N) = 0 := by
  rw [famS6]
  exact count_map_range_eq_zero _ _ _
    (by intro k hk hf; simp only [Prod.mk.injEq] at hf; exact h k hk (by omega))

theorem u_B1 (N k : ℕ) (hN : 3 ≤ N) (hk : k < N - 2) : ucount N 0 (k + 2) = 2 := by
  simp only [ucount]
  rw [count_dedges, count_dedges]
  rcases Nat.lt_or_ge (k + 2) (N - 1) with hb | hb
  · rw [famB1_pos N 0 (k + 2) k (by omega) (by omega) (by omega),
      famB2_ne N 0 (k + 2) (by omega),
      famB3_ne N 0 (k + 2) (by omega),
      famT1_ne N 0 (k + 2) (by omega),
      famT2_ne N 0 (k + 2) (by omega),
      famT3_ne N 0 (k + 2) (by omega),
      famS1_ne N 0 (k + 2) (by omega) (by omega),
      famS2_ne N 0 (k + 2) (by omega),
      famS3_ne N 0 (k + 2) (by omega) (by omega),
      famS4_ne N 0 (k + 2) (by omega) (by omega),
      famS5_ne N 0 (k + 2) (by omega) (by omega),
      famS6_ne N 0 (k + 2) (by omega),
      famB1_ne N (k + 2) 0 (by omega),
      famB2_ne N (k + 2) 0 (by omega),
      famB3_pos N (k + 2) 0 (k + 1) (by omega) (by omega) (by omega),
      famT1_ne N (k + 2) 0 (by omega),
      famT2_ne N (k + 2) 0 (by omega),
      famT3_ne N (k + 2) 0 (by omega),
      famS1_ne N (k + 2) 0 (by omega) (by omega),
      famS2_ne N (k + 2) 0 (by omega),
      famS3_ne N (k + 2) 0 (by omega) (by omega),
      famS4_ne N (k + 2) 0 (by omega) (by omega),
      famS5_ne N (k + 2) 0 (by omega) (by omega),
      famS6_ne N (k + 2) 0 (by omega)]
  · rw [famB1_pos N 0 (k + 2) k (by omega) (by omega) (by omega),
      famB2_ne N 0 (k + 2) (by omega),
      famB3_ne N 0 (k + 2) (by omega),
      famT1_ne N 0 (k + 2) (by omega),
      famT2_ne N 0 (k + 2) (by omega),
      famT3_ne N 0 (k + 2) (by omega),
      famS1_ne N 0 (k + 2) (by omega) (by omega),
      famS2_ne N 0 (k + 2) (by omega),
      famS3_ne N 0 (k + 2) (by omega) (by omega),
      famS4_ne N 0 (k + 2) (by omega) (by omega),
      famS5_ne N 0 (k + 2) (by omega) (by omega),
      famS6_ne N 0 (k + 2) (by omega),
      famB1_ne N (k + 2) 0 (by omega),
      famB2_ne N (k + 2) 0 (by omega),
      famB3_ne N (k + 2) 0 (by omega),
      famT1_ne N (k + 2) 0 (by omega),
      famT2_ne N (k + 2) 0 (by omega),
      famT3_ne N (k + 2) 0 (by omega),
      famS1_pos N (k + 2) 0 (N - 1) (by omega) (by omega) (by omega),
      famS2_ne N (k + 2) 0 (by omega),
      famS3_ne N (k + 2) 0 (by omega) (by omega),
      famS4_ne N (k + 2) 0 (by omega) (by omega),
      famS5_ne N (k + 2) 0 (by omega) (by omega),
      famS6_ne N (k + 2) 0 (by omega)]

theorem u_B2 (N k : ℕ) (hN : 3 ≤ N) (hk : k < N - 2) :
    ucount N (k + 2) (k + 1) = 2 := by
  simp only [ucount]
  rw [count_dedges, count_dedges]
  rw [famB1_ne N (k + 2) (k + 1) (by omega),
    famB2_pos N (k + 2) (k + 1) k (by omega) (by omega) (by omega),
    famB3_ne N (k + 2) (k + 1) (by omega),
    famT1_ne N (k + 2) (k + 1) (by omega),
    famT2_ne N (k + 2) (k + 1) (by omega),
    famT3_ne N (k + 2) (k + 1) (by omega),
    famS1_ne N (k + 2) (k + 1) (by omega) (by omega),
    famS2_ne N (k + 2) (k + 1) (by omega),
    famS3_ne N (k + 2) (k + 1) (by omega) (by omega),
    famS4_ne N (k + 2) (k + 1) (by omega) (by omega),
    famS5_ne N (k + 2) (k + 1) (by omega) (by omega),
    famS6_ne N (k + 2) (k + 1) (by omega),
    famB1_ne N (k + 1) (k + 2) (by omega),
    famB2_ne N (k + 1) (k + 2) (by omega),
    famB3_ne N (k + 1) (k + 2) (by omega),
    famT1_ne N (k + 1) (k + 2) (by omega),
    famT2_ne N (k + 1) (k + 2) (by omega),
    famT3_ne N (k + 1) (k + 2) (by omega),
    famS1_pos N (k + 1) (k + 2) (k + 1) (by omega) (by omega) (by omega),
    famS2_ne N (k + 1) (k + 2) (by omega),
    famS3_ne N (k + 1) (k + 2) (by omega) (by omega),
    famS4_ne N (k + 1) (k + 2) (by omega) (by omega),
    famS5_ne N (k + 1) (k + 2) (by omega) (by omega),
    famS6_ne N (k + 1) (k + 2) (by omega)]

theorem u_B3 (N k : ℕ) (hN : 3 ≤ N) (hk : k < N - 2) :
    ucount N (k + 1) 0 = 2 := by
  simp only [ucount]
  rw [count_dedges, count_dedges]
  rcases Nat.eq_zero_or_pos k with hb | hb
  · rw [famB1_ne N (k + 1) 0 (by omega),
      famB2_ne N (k + 1) 0 (by omega),
      famB3_pos N (k + 1) 0 k (by omega) (by omega) (by omega),
      famT1_ne N (k + 1) 0 (by omega),
      famT2_ne N (k + 1) 0 (by omega),
      famT3_ne N (k + 1) 0 (by omega),
      famS1_ne N (k + 1) 0 (by omega) (by omega),
      famS2_ne N (k + 1) 0 (by omega),
      famS3_ne N (k + 1) 0 (by omega) (by omega),
      famS4_ne N (k + 1) 0 (by omega) (by omega),
      famS5_ne N (k + 1) 0 (by omega) (by omega),
      famS6_ne N (k + 1) 0 (by omega),
      famB1_ne N 0 (k + 1) (by omega),
      famB2_ne N 0 (k + 1) (by omega),
      famB3_ne N 0 (k + 1) (by omega),
      famT1_ne N 0 (k + 1) (by omega),
      famT2_ne N 0 (k + 1) (by omega),
      famT3_ne N 0 (k + 1) (by omega),
      famS1_pos N 0 (k + 1) 0 (by omega) (by omega) (by omega),
      famS2_ne N 0 (k + 1) (by omega),
      famS3_ne N 0 (k + 1) (by omega) (by omega),
      famS4_ne N 0 (k + 1) (by omega) (by omega),
      famS5_ne N 0 (k + 1) (by omega) (by omega),
      famS6_ne N 0 (k + 1) (by omega)]
  · rw [famB1_ne N (k + 1) 0 (by omega),
      famB2_ne N (k + 1) 0 (by omega),
      famB3_pos N (k + 1) 0 k (by omega) (by omega) (by omega),
      famT1_ne N (k + 1) 0 (by omega),
      famT2_ne N (k + 1) 0 (by omega),
      famT3_ne N (k + 1) 0 (by omega),
      famS1_ne N (k + 1) 0 (by omega) (by omega),
      famS2_ne N (k + 1) 0 (by omega),
      famS3_ne N (k + 1) 0 (by omega) (by omega),
      famS4_ne N (k + 1) 0 (by omega) (by omega),
      famS5_ne N (k + 1) 0 (by omega) (by omega),
      famS6_ne N (k + 1) 0 (by omega),
      famB1_pos N 0 (k + 1) (k - 1) (by omega) (by omega) (by omega),
      famB2_ne N 0 (k + 1) (by omega),
      famB3_ne N 0 (k + 1) (by omega),
      famT1_ne N 0 (k + 1) (by omega),
      famT2_ne N 0 (k + 1) (by omega),
      famT3_ne N 0 (k + 1) (by omega),
      famS1_ne N 0 (k + 1) (by omega) (by omega),
      famS2_ne N 0 (k + 1) (by omega),
      famS3_ne N 0 (k + 1) (by omega) (by omega),
      famS4_ne N 0 (k + 1) (by omega) (by omega),
      famS5_ne N 0 (k + 1) (by omega) (by omega),
      famS6_ne N 0 (k + 1) (by omega)]

theorem u_T1 (N k : ℕ) (hN : 3 ≤ N) (hk : k < N - 2) :
    ucount N N (N + k + 1) = 2 := by
  simp only [ucount]
  rw [count_dedges, count_dedges]
  rcases Nat.eq_zero_or_pos k with hb | hb
  · rw [famB1_ne N N (N + k + 1) (by omega),
      famB2_ne N N (N + k + 1) (by omega),
      famB3_ne N N (N + k + 1) (by omega),
      famT1_pos N N (N + k + 1) k (by omega) (by omega) (by omega),
      famT2_ne N N (N + k + 1) (by omega),
      famT3_ne N N (N + k + 1) (by omega),
      famS1_ne N N (N + k + 1) (by omega) (by omega),
      famS2_ne N N (N + k + 1) (by omega),
      famS3_ne N N (N + k + 1) (by omega) (by omega),
      famS4_ne N N (N + k + 1) (by omega) (by omega),
      famS5_ne N N (N + k + 1) (by omega) (by omega),
      famS6_ne N N (N + k + 1) (by omega),
      famB1_ne N (N + k + 1) N (by omega),
      famB2_ne N (N + k + 1) N (by omega),
      famB3_ne N (N + k + 1) N (by omega),
      famT1_ne N (N + k + 1) N (by omega),
      famT2_ne N (N + k + 1) N (by omega),
      famT3_ne N (N + k + 1) N (by omega),
      famS1_ne N (N + k + 1) N (by omega) (by omega),
      famS2_ne N (N + k + 1) N (by omega),
      famS3_ne N (N + k + 1) N (by omega) (by omega),
      famS4_ne N (N + k + 1) N (by omega) (by omega),
      famS5_pos N (N + k + 1) N 0 (by omega) (by omega) (by omega),
      famS6_ne N (N + k + 1) N (by omega)]
  · rw [famB1_ne N N (N + k + 1) (by omega),
      famB2_ne N N (N + k + 1) (by omega),
      famB3_ne N N (N + k + 1) (by omega),
      famT1_pos N N (N + k + 1) k (by omega) (by omega) (by omega),
      famT2_ne N N (N + k + 1) (by omega),
      famT3_ne N N (N + k + 1) (by omega),
      famS1_ne N N (N + k + 1) (by omega) (by omega),
      famS2_ne N N (N + k + 1) (by omega),
      famS3_ne N N (N + k + 1) (by omega) (by omega),
      famS4_ne N N (N + k + 1) (by omega) (by omega),
      famS5_ne N N (N + k + 1) (by omega) (by omega),
      famS6_ne N N (N + k + 1) (by omega),
      famB1_ne N (N + k + 1) N (by omega),
      famB2_ne N (N + k + 1) N (by omega),
      famB3_ne N (N + k + 1) N (by omega),
      famT1_ne N (N + k + 1) N (by omega),
      famT2_ne N (N + k + 1) N (by omega),
      famT3_pos N (N + k + 1) N (k - 1) (by omega) (by omega) (by omega),
      famS1_ne N (N + k + 1) N (by omega) (by omega),
      famS2_ne N (N + k + 1) N (by omega),
      famS3_ne N (N + k + 1) N (by omega) (by omega),
      famS4_ne N (N + k + 1) N (by omega) (by omega),
      famS5_ne N (N + k + 1) N (by omega) (by omega),
      famS6_ne N (N + k + 1) N (by omega)]

theorem u_T2 (N k : ℕ) (hN : 3 ≤ N) (hk : k < N - 2) :
    ucount N (N + k + 1) (N + k + 2) = 2 := by
  simp only [ucount]
  rw [count_dedges, count_dedges]
  rw [famB1_ne N (N + k + 1) (N + k + 2) (by omega),
    famB2_ne N (N + k + 1) (N + k + 2) (by omega),
    famB3_ne N (N + k + 1) (N + k + 2) (by omega),
    famT1_ne N (N + k + 1) (N + k + 2) (by omega),
    famT2_pos N (N + k + 1) (N + k + 2) k (by omega) (by omega) (by omega),
    famT3_ne N (N + k + 1) (N + k + 2) (by omega),
    famS1_ne N (N + k + 1) (N + k + 2) (by omega) (by omega),
    famS2_ne N (N + k + 1) (N + k + 2) (by omega),
    famS3_ne N (N + k + 1) (N + k + 2) (by omega) (by omega),
    famS4_ne N (N + k + 1) (N + k + 2) (by omega) (by omega),
    famS5_ne N (N + k + 1) (N + k + 2) (by omega) (by omega),
    famS6_ne N (N + k + 1) (N + k + 2) (by omega),
    famB1_ne N (N + k + 2) (N + k + 1) (by omega),
    famB2_ne N (N + k + 2) (N + k + 1) (by omega),
    famB3_ne N (N + k + 2) (N + k + 1) (by omega),
    famT1_ne N (N + k + 2) (N + k + 1) (by omega),
    famT2_ne N (N + k + 2) (N + k + 1) (by omega),
    famT3_ne N (N + k + 2) (N + k + 1) (by omega),
    famS1_ne N (N + k + 2) (N + k + 1) (by omega) (by omega),
    famS2_ne N (N + k + 2) (N + k + 1) (by omega),
    famS3_ne N (N + k + 2) (N + k + 1) (by omega) (by omega),
    famS4_ne N (N + k + 2) (N + k + 1) (by omega) (by omega),
    famS5_pos N (N + k + 2) (N + k + 1) (k + 1) (by omega) (by omega) (by omega),
    famS6_ne N (N + k + 2) (N + k + 1) (by omega)]

theorem u_T3 (N k : ℕ) (hN : 3 ≤ N) (hk : k < N - 2) :
    ucount N (N + k + 2) N = 2 := by
  simp only [ucount]
  rw [count_dedges, count_dedges]
  rcases Nat.lt_or_ge (k + 2) (N - 1) with hb | hb
  · rw [famB1_ne N (N + k + 2) N (by omega),
      famB2_ne N (N + k + 2) N (by omega),
      famB3_ne N (N + k + 2) N (by omega),
      famT1_ne N (N + k + 2) N (by omega),
      famT2_ne N (N + k + 2) N (by omega),
      famT3_pos N (N + k + 2) N k (by omega) (by omega) (by omega),
      famS1_ne N (N + k + 2) N (by omega) (by omega),
      famS2_ne N (N + k + 2) N (by omega),
      famS3_ne N (N + k + 2) N (by omega) (by omega),
      famS4_ne N (N + k + 2) N (by omega) (by omega),
      famS5_ne N (N + k + 2) N (by omega) (by omega),
      famS6_ne N (N + k + 2) N (by omega),
      famB1_ne N N (N + k + 2) (by omega),
      famB2_ne N N (N + k + 2) (by omega),
      famB3_ne N N (N + k + 2) (by omega),
      famT1_pos N N (N + k + 2) (k + 1) (by omega) (by omega) (by omega),
      famT2_ne N N (N + k + 2) (by omega),
      famT3_ne N N (N + k + 2) (by omega),
      famS1_ne N N (N + k + 2) (by omega) (by omega),
      famS2_ne N N (N + k + 2) (by omega),
      famS3_ne N N (N + k + 2) (by omega) (by omega),
      famS4_ne N N (N + k + 2) (by omega) (by omega),
      famS5_ne N N (N + k + 2) (by omega) (by omega),
      famS6_ne N N (N + k + 2) (by omega)]
  · rw [famB1_ne N (N + k + 2) N (by omega),
      famB2_ne N (N + k + 2) N (by omega),
      famB3_ne N (N + k + 2) N (by omega),
      famT1_ne N (N + k + 2) N (by omega),
      famT2_ne N (N + k + 2) N (by omega),
      famT3_pos N (N + k + 2) N k (by omega) (by omega) (by omega),
      famS1_ne N (N + k + 2) N (by omega) (by omega),
      famS2_ne N (N + k + 2) N (by omega),
      famS3_ne N (N + k + 2) N (by omega) (by omega),
      famS4_ne N (N + k + 2) N (by omega) (by omega),
      famS5_ne N (N + k + 2) N (by omega) (by omega),
      famS6_ne N (N + k + 2) N (by omega),
      famB1_ne N N (N + k + 2) (by omega),
      famB2_ne N N (N + k + 2) (by omega),
      famB3_ne N N (N + k + 2) (by omega),
      famT1_ne N N (N + k + 2) (by omega),
      famT2_ne N N (N + k + 2) (by omega),
      famT3_ne N N (N + k + 2) (by omega),
      famS1_ne N N (N + k + 2) (by omega) (by omega),
      famS2_ne N N (N + k + 2) (by omega),
      famS3_ne N N (N + k + 2) (by omega) (by omega),
      famS4_ne N N (N + k + 2) (by omega) (by omega),
      famS5_pos N N (N + k + 2) (N - 1) (by omega) (by omega) (by omega),
      famS6_ne N N (N + k + 2) (by omega)]

theorem u_S1 (N i : ℕ) (hN : 3 ≤ N) (hi : i < N) :
    ucount N i ((i + 1) % N) = 2 := by
  simp only [ucount]
  rw [count_dedges, count_dedges]
  rcases Nat.lt_or_ge (i + 1) N with h | h
  · rw [Nat.mod_eq_of_lt h]
    rcases Nat.eq_zero_or_pos i with hb | hb
    · rw [famB1_ne N i (i + 1) (by omega),
        famB2_ne N i (i + 1) (by omega),
        famB3_ne N i (i + 1) (by omega),
        famT1_ne N i (i + 1) (by omega),
        famT2_ne N i (i + 1) (by omega),
        famT3_ne N i (i + 1) (by omega),
        famS1_pos N i (i + 1) i (by omega) (by omega) (by omega),
        famS2_ne N i (i + 1) (by omega),
        famS3_ne N i (i + 1) (by omega) (by omega),
        famS4_ne N i (i + 1) (by omega) (by omega),
        famS5_ne N i (i + 1) (by omega) (by omega),
        famS6_ne N i (i + 1) (by omega),
        famB1_ne N (i + 1) i (by omega),
        famB2_ne N (i + 1) i (by omega),
        famB3_pos N (i + 1) i 0 (by omega) (by omega) (by omega),
        famT1_ne N (i + 1) i (by omega),
        famT2_ne N (i + 1) i (by omega),
        famT3_ne N (i + 1) i (by omega),
        famS1_ne N (i + 1) i (by omega) (by omega),
        famS2_ne N (i + 1) i (by omega),
        famS3_ne N (i + 1) i (by omega) (by omega),
        famS4_ne N (i + 1) i (by omega) (by omega),
        famS5_ne N (i + 1) i (by omega) (by omega),
        famS6_ne N (i + 1) i (by omega)]
    · rw [famB1_ne N i (i + 1) (by omega),
        famB2_ne N i (i + 1) (by omega),
        famB3_ne N i (i + 1) (by omega),
        famT1_ne N i (i + 1) (by omega),
        famT2_ne N i (i + 1) (by omega),
        famT3_ne N i (i + 1) (by omega),
        famS1_pos N i (i + 1) i (by omega) (by omega) (by omega),
        famS2_ne N i (i + 1) (by omega),
        famS3_ne N i (i + 1) (by omega) (by omega),
        famS4_ne N i (i + 1) (by omega) (by omega),
        famS5_ne N i (i + 1) (by omega) (by omega),
        famS6_ne N i (i + 1) (by omega),
        famB1_ne N (i + 1) i (by omega),
        famB2_pos N (i + 1) i (i - 1) (by omega) (by omega) (by omega),
        famB3_ne N (i + 1) i (by omega),
        famT1_ne N (i + 1) i (by omega),
        famT2_ne N (i + 1) i (by omega),
        famT3_ne N (i + 1) i (by omega),
        famS1_ne N (i + 1) i (by omega) (by omega),
        famS2_ne N (i + 1) i (by omega),
        famS3_ne N (i + 1) i (by omega) (by omega),
        famS4_ne N (i + 1) i (by omega) (by omega),
        famS5_ne N (i + 1) i (by omega) (by omega),
        famS6_ne N (i + 1) i (by omega)]
  · have h0 : (i + 1) % N = 0 := by
      rw [succ_mod N i hi, if_pos (by omega)]
    rw [h0]
    rw [famB1_ne N i 0 (by omega),
      famB2_ne N i 0 (by omega),
      famB3_ne N i 0 (by omega),
      famT1_ne N i 0 (by omega),
      famT2_ne N i 0 (by omega),
      famT3_ne N i 0 (by omega),
      famS1_pos N i 0 i (by omega) (by omega) (by omega),
      famS2_ne N i 0 (by omega),
      famS3_ne N i 0 (by omega) (by omega),
      famS4_ne N i 0 (by omega) (by omega),
      famS5_ne N i 0 (by omega) (by omega),
      famS6_ne N i 0 (by omega),
      famB1_pos N 0 i (i - 2) (by omega) (by omega) (by omega),
      famB2_ne N 0 i (by omega),
      famB3_ne N 0 i (by omega),
      famT1_ne N 0 i (by omega),
      famT2_ne N 0 i (by omega),
      famT3_ne N 0 i (by omega),
      famS1_ne N 0 i (by omega) (by omega),
      famS2_ne N 0 i (by omega),
      famS3_ne N 0 i (by omega) (by omega),
      famS4_ne N 0 i (by omega) (by omega),
      famS5_ne N 0 i (by omega) (by omega),
      famS6_ne N 0 i (by omega)]

theorem u_S2 (N i : ℕ) (hN : 3 ≤ N) (hi : i < N) :
    ucount N ((i + 1) % N) (N + (i + 1) % N) = 2 := by
  simp only [ucount]
  rw [count_dedges, count_dedges]
  have hx : (i + 1) % N < N := Nat.mod_lt _ (by omega)
  rw [famB1_ne N ((i + 1) % N) (N + (i + 1) % N) (by omega),
    famB2_ne N ((i + 1) % N) (N + (i + 1) % N) (by omega),
    famB3_ne N ((i + 1) % N) (N + (i + 1) % N) (by omega),
    famT1_ne N ((i + 1) % N) (N + (i + 1) % N) (by omega),
    famT2_ne N ((i + 1) % N) (N + (i + 1) % N) (by omega),
    famT3_ne N ((i + 1) % N) (N + (i + 1) % N) (by omega),
    famS1_ne N ((i + 1) % N) (N + (i + 1) % N) (by omega) (by omega),
    famS2_pos N ((i + 1) % N) (N + (i + 1) % N) ((i + 1) % N) (by omega) (by omega) (by omega),
    famS3_ne N ((i + 1) % N) (N + (i + 1) % N) (by omega) (by omega),
    famS4_ne N ((i + 1) % N) (N + (i + 1) % N) (by omega) (by omega),
    famS5_ne N ((i + 1) % N) (N + (i + 1) % N) (by omega) (by omega),
    famS6_ne N ((i + 1) % N) (N + (i + 1) % N) (by omega),
    famB1_ne N (N + (i + 1) % N) ((i + 1) % N) (by omega),
    famB2_ne N (N + (i + 1) % N) ((i + 1) % N) (by omega),
    famB3_ne N (N + (i + 1) % N) ((i + 1) % N) (by omega),
    famT1_ne N (N + (i + 1) % N) ((i + 1) % N) (by omega),
    famT2_ne N (N + (i + 1) % N) ((i + 1) % N) (by omega),
    famT3_ne N (N + (i + 1) % N) ((i + 1) % N) (by omega),
    famS1_ne N (N + (i + 1) % N) ((i + 1) % N) (by omega) (by omega),
    famS2_ne N (N + (i + 1) % N) ((i + 1) % N) (by omega),
    famS3_ne N (N + (i + 1) % N) ((i + 1) % N) (by omega) (by omega),
    famS4_ne N (N + (i + 1) % N) ((i + 1) % N) (by omega) (by omega),
    famS5_ne N (N + (i + 1) % N) ((i + 1) % N) (by omega) (by omega),
    famS6_pos N (N + (i + 1) % N) ((i + 1) % N) ((i + 1) % N) (by omega) (by omega) (by omega)]

theorem u_S3 (N i : ℕ) (hN : 3 ≤ N) (hi : i < N) :
    ucount N (N + (i + 1) % N) i = 2 := by
  simp only [ucount]
  rw [count_dedges, count_dedges]
  rcases Nat.lt_or_ge (i + 1) N with h | h
  · rw [Nat.mod_eq_of_lt h]
    rw [famB1_ne N (N + (i + 1)) i (by omega),
      famB2_ne N (N + (i + 1)) i (by omega),
      famB3_ne N (N + (i + 1)) i (by omega),
      famT1_ne N (N + (i + 1)) i (by omega),
      famT2_ne N (N + (i + 1)) i (by omega),
      famT3_ne N (N + (i + 1)) i (by omega),
      famS1_ne N (N + (i + 1)) i (by omega) (by omega),
      famS2_ne N (N + (i + 1)) i (by omega),
      famS3_pos N (N + (i + 1)) i i (by omega) (by omega) (by omega),
      famS4_ne N (N + (i + 1)) i (by omega) (by omega),
      famS5_ne N (N + (i + 1)) i (by omega) (by omega),
      famS6_ne N (N + (i + 1)) i (by omega),
      famB1_ne N i (N + (i + 1)) (by omega),
      famB2_ne N i (N + (i + 1)) (by omega),
      famB3_ne N i (N + (i + 1)) (by omega),
      famT1_ne N i (N + (i + 1)) (by omega),
      famT2_ne N i (N + (i + 1)) (by omega),
      famT3_ne N i (N + (i + 1)) (by omega),
      famS1_ne N i (N + (i + 1)) (by omega) (by omega),
      famS2_ne N i (N + (i + 1)) (by omega),
      famS3_ne N i (N + (i + 1)) (by omega) (by omega),
      famS4_pos N i (N + (i + 1)) i (by omega) (by omega) (by omega),
      famS5_ne N i (N + (i + 1)) (by omega) (by omega),
      famS6_ne N i (N + (i + 1)) (by omega)]
  · have h0 : (i + 1) % N = 0 := by
      rw [succ_mod N i hi, if_pos (by omega)]
    rw [h0]
    simp only [Nat.add_zero]
    rw [famB1_ne N N i (by omega),
      famB2_ne N N i (by omega),
      famB3_ne N N i (by omega),
      famT1_ne N N i (by omega),
      famT2_ne N N i (by omega),
      famT3_ne N N i (by omega),
      famS1_ne N N i (by omega) (by omega),
      famS2_ne N N i (by omega),
      famS3_pos N N i i (by omega) (by omega) (by omega),
      famS4_ne N N i (by omega) (by omega),
      famS5_ne N N i (by omega) (by omega),
      famS6_ne N N i (by omega),
      famB1_ne N i N (by omega),
      famB2_ne N i N (by omega),
      famB3_ne N i N (by omega),
      famT1_ne N i N (by omega),
      famT2_ne N i N (by omega),
      famT3_ne N i N (by omega),
      famS1_ne N i N (by omega) (by omega),
      famS2_ne N i N (by omega),
      famS3_ne N i N (by omega) (by omega),
      famS4_pos N i N i (by omega) (by omega) (by omega),
      famS5_ne N i N (by omega) (by omega),
      famS6_ne N i N (by omega)]

theorem u_S4 (N i : ℕ) (hN : 3 ≤ N) (hi : i < N) :
    ucount N i (N + (i + 1) % N) = 2 := by
  simp only [ucount]
  rw [count_dedges, count_dedges]
  rcases Nat.lt_or_ge (i + 1) N with h | h
  · rw [Nat.mod_eq_of_lt h]
    rw [famB1_ne N i (N + (i + 1)) (by omega),
      famB2_ne N i (N + (i + 1)) (by omega),
      famB3_ne N i (N + (i + 1)) (by omega),
      famT1_ne N i (N + (i + 1)) (by omega),
      famT2_ne N i (N + (i + 1)) (by omega),
      famT3_ne N i (N + (i + 1)) (by omega),
      famS1_ne N i (N + (i + 1)) (by omega) (by omega),
      famS2_ne N i (N + (i + 1)) (by omega),
      famS3_ne N i (N + (i + 1)) (by omega) (by omega),
      famS4_pos N i (N + (i + 1)) i (by omega) (by omega) (by omega),
      famS5_ne N i (N + (i + 1)) (by omega) (by omega),
      famS6_ne N i (N + (i + 1)) (by omega),
      famB1_ne N (N + (i + 1)) i (by omega),
      famB2_ne N (N + (i + 1)) i (by omega),
      famB3_ne N (N + (i + 1)) i (by omega),
      famT1_ne N (N + (i + 1)) i (by omega),
      famT2_ne N (N + (i + 1)) i (by omega),
      famT3_ne N (N + (i + 1)) i (by omega),
      famS1_ne N (N + (i + 1)) i (by omega) (by omega),
      famS2_ne N (N + (i + 1)) i (by omega),
      famS3_pos N (N + (i + 1)) i i (by omega) (by omega) (by omega),
      famS4_ne N (N + (i + 1)) i (by omega) (by omega),
      famS5_ne N (N + (i + 1)) i (by omega) (by omega),
      famS6_ne N (N + (i + 1)) i (by omega)]
  · have h0 : (i + 1) % N = 0 := by
      rw [succ_mod N i hi, if_pos (by omega)]
    rw [h0]
    simp only [Nat.add_zero]
    rw [famB1_ne N i N (by omega),
      famB2_ne N i N (by omega),
      famB3_ne N i N (by omega),
      famT1_ne N i N (by omega),
      famT2_ne N i N (by omega),
      famT3_ne N i N (by omega),
      famS1_ne N i N (by omega) (by omega),
      famS2_ne N i N (by omega),
      famS3_ne N i N (by omega) (by omega),
      famS4_pos N i N i (by omega) (by omega) (by omega),
      famS5_ne N i N (by omega) (by omega),
      famS6_ne N i N (by omega),
      famB1_ne N N i (by omega),
      famB2_ne N N i (by omega),
      famB3_ne N N i (by omega),
      famT1_ne N N i (by omega),
      famT2_ne N N i (by omega),
      famT3_ne N N i (by omega),
      famS1_ne N N i (by omega) (by omega),
      famS2_ne N N i (by omega),
      famS3_pos N N i i (by omega) (by omega) (by omega),
      famS4_ne N N i (by omega) (by omega),
      famS5_ne N N i (by omega) (by omega),
      famS6_ne N N i (by omega)]

theorem u_S5 (N i : ℕ) (hN : 3 ≤ N) (hi : i < N) :
    ucount N (N + (i + 1) % N) (N + i) = 2 := by
  simp only [ucount]
  rw [count_dedges, count_dedges]
  rcases Nat.lt_or_ge (i + 1) N with h | h
  · rw [Nat.mod_eq_of_lt h]
    rcases Nat.eq_zero_or_pos i with hb | hb
    · rw [famB1_ne N (N + (i + 1)) (N + i) (by omega),
        famB2_ne N (N + (i + 1)) (N + i) (by omega),
        famB3_ne N (N + (i + 1)) (N + i) (by omega),
        famT1_ne N (N + (i + 1)) (N + i) (by omega),
        famT2_ne N (N + (i + 1)) (N + i) (by omega),
        famT3_ne N (N + (i + 1)) (N + i) (by omega),
        famS1_ne N (N + (i + 1)) (N + i) (by omega) (by omega),
        famS2_ne N (N + (i + 1)) (N + i) (by omega),
        famS3_ne N (N + (i + 1)) (N + i) (by omega) (by omega),
        famS4_ne N (N + (i + 1)) (N + i) (by omega) (by omega),
        famS5_pos N (N + (i + 1)) (N + i) i (by omega) (by omega) (by omega),
        famS6_ne N (N + (i + 1)) (N + i) (by omega),
        famB1_ne N (N + i) (N + (i + 1)) (by omega),
        famB2_ne N (N + i) (N + (i + 1)) (by omega),
        famB3_ne N (N + i) (N + (i + 1)) (by omega),
        famT1_pos N (N + i) (N + (i + 1)) 0 (by omega) (by omega) (by omega),
        famT2_ne N (N + i) (N + (i + 1)) (by omega),
        famT3_ne N (N + i) (N + (i + 1)) (by omega),
        famS1_ne N (N + i) (N + (i + 1)) (by omega) (by omega),
        famS2_ne N (N + i) (N + (i + 1)) (by omega),
        famS3_ne N (N + i) (N + (i + 1)) (by omega) (by omega),
        famS4_ne N (N + i) (N + (i + 1)) (by omega) (by omega),
        famS5_ne N (N + i) (N + (i + 1)) (by omega) (by omega),
        famS6_ne N (N + i) (N + (i + 1)) (by omega)]
    · rw [famB1_ne N (N + (i + 1)) (N + i) (by omega),
        famB2_ne N (N + (i + 1)) (N + i) (by omega),
        famB3_ne N (N + (i + 1)) (N + i) (by omega),
        famT1_ne N (N + (i + 1)) (N + i) (by omega),
        famT2_ne N (N + (i + 1)) (N + i) (by omega),
        famT3_ne N (N + (i + 1)) (N + i) (by omega),
        famS1_ne N (N + (i + 1)) (N + i) (by omega) (by omega),
        famS2_ne N (N + (i + 1)) (N + i) (by omega),
        famS3_ne N (N + (i + 1)) (N + i) (by omega) (by omega),
        famS4_ne N (N + (i + 1)) (N + i) (by omega) (by omega),
        famS5_pos N (N + (i + 1)) (N + i) i (by omega) (by omega) (by omega),
        famS6_ne N (N + (i + 1)) (N + i) (by omega),
        famB1_ne N (N + i) (N + (i + 1)) (by omega),
        famB2_ne N (N + i) (N + (i + 1)) (by omega),
        famB3_ne N (N + i) (N + (i + 1)) (by omega),
        famT1_ne N (N + i) (N + (i + 1)) (by omega),
        famT2_pos N (N + i) (N + (i + 1)) (i - 1) (by omega) (by omega) (by omega),
        famT3_ne N (N + i) (N + (i + 1)) (by omega),
        famS1_ne N (N + i) (N + (i + 1)) (by omega) (by omega),
        famS2_ne N (N + i) (N + (i + 1)) (by omega),
        famS3_ne N (N + i) (N + (i + 1)) (by omega) (by omega),
        famS4_ne N (N + i) (N + (i + 1)) (by omega) (by omega),
        famS5_ne N (N + i) (N + (i + 1)) (by omega) (by omega),
        famS6_ne N (N + i) (N + (i + 1)) (by omega)]
  · have h0 : (i + 1) % N = 0 := by
      rw [succ_mod N i hi, if_pos (by omega)]
    rw [h0]
    simp only [Nat.add_zero]
    rw [famB1_ne N N (N + i) (by omega),
      famB2_ne N N (N + i) (by omega),
      famB3_ne N N (N + i) (by omega),
      famT1_ne N N (N + i) (by omega),
      famT2_ne N N (N + i) (by omega),
      famT3_ne N N (N + i) (by omega),
      famS1_ne N N (N + i) (by omega) (by omega),
      famS2_ne N N (N + i) (by omega),
      famS3_ne N N (N + i) (by omega) (by omega),
      famS4_ne N N (N + i) (by omega) (by omega),
      famS5_pos N N (N + i) i (by omega) (by omega) (by omega),
      famS6_ne N N (N + i) (by omega),
      famB1_ne N (N + i) N (by omega),
      famB2_ne N (N + i) N (by omega),
      famB3_ne N (N + i) N (by omega),
      famT1_ne N (N + i) N (by omega),
      famT2_ne N (N + i) N (by omega),
      famT3_pos N (N + i) N (i - 2) (by omega) (by omega) (by omega),
      famS1_ne N (N + i) N (by omega) (by omega),
      famS2_ne N (N + i) N (by omega),
      famS3_ne N (N + i) N (by omega) (by omega),
      famS4_ne N (N + i) N (by omega) (by omega),
      famS5_ne N (N + i) N (by omega) (by omega),
      famS6_ne N (N + i) N (by omega)]

theorem u_S6 (N i : ℕ) (hN : 3 ≤ N) (hi : i < N) :
    ucount N (N + i) i = 2 := by
  simp only [ucount]
  rw [count_dedges, count_dedges]
  rw [famB1_ne N (N + i) i (by omega),
    famB2_ne N (N + i) i (by omega),
    famB3_ne N (N + i) i (by omega),
    famT1_ne N (N + i) i (by omega),
    famT2_ne N (N + i) i (by omega),
    famT3_ne N (N + i) i (by omega),
    famS1_ne N (N + i) i (by omega) (by omega),
    famS2_ne N (N + i) i (by omega),
    famS3_ne N (N + i) i (by omega) (by omega),
    famS4_ne N (N + i) i (by omega) (by omega),
    famS5_ne N (N + i) i (by omega) (by omega),
    famS6_pos N (N + i) i i (by omega) (by omega) (by omega),
    famB1_ne N i (N + i) (by omega),
    famB2_ne N i (N + i) (by omega),
    famB3_ne N i (N + i) (by omega),
    famT1_ne N i (N + i) (by omega),
    famT2_ne N i (N + i) (by omega),
    famT3_ne N i (N + i) (by omega),
    famS1_ne N i (N + i) (by omega) (by omega),
    famS2_pos N i (N + i) i (by omega) (by omega) (by omega),
    famS3_ne N i (N + i) (by omega) (by omega),
    famS4_ne N i (N + i) (by omega) (by omega),
    famS5_ne N i (N + i) (by omega) (by omega),
    famS6_ne N i (N + i) (by omega)]

theorem ucount_swap (N a b : ℕ) : ucount N a b = ucount N b a := by
  simp only [ucount]
  omega

set_option maxHeartbeats 1600000 in
theorem triHasEdge_count (x y z a b : ℕ) (h1 : x ≠ y) (h2 : y ≠ z) (h3 : z ≠ x)
    (hab : a ≠ b) :
    (if triHasEdge (x, y, z) (a, b) = true then 1 else 0) =
      List.count (a, b) (triSlots (x, y, z)) + List.count (b, a) (triSlots (x, y, z)) := by
  simp only [triHasEdge, triSlots, List.any_cons, List.any_nil, Bool.or_false,
    Bool.or_eq_true, beq_iff_eq, Prod.mk.injEq, List.count_cons, List.count_nil]
  split_ifs <;> omega

theorem countP_triHasEdge_eq (l : List (ℕ × ℕ × ℕ))
    (hd : ∀ t ∈ l, t.1 ≠ t.2.1 ∧ t.2.1 ≠ t.2.2 ∧ t.2.2 ≠ t.1) (a b : ℕ) (hab : a ≠ b) :
    l.countP (fun t => triHasEdge t (a, b)) =
      (l.flatMap triSlots).count (a, b) + (l.flatMap triSlots).count (b, a) := by
  induction l with
  | nil => rfl
  | cons t ts ih =>
      rw [List.countP_cons, List.flatMap_cons, List.count_append, List.count_append,
        ih (fun u hu => hd u (List.mem_cons_of_mem _ hu))]
      obtain ⟨x, y, z⟩ := t
      have hdt := hd (x, y, z) (List.mem_cons_self _ _)
      dsimp only at hdt
      have hh := triHasEdge_count x y z a b hdt.1 hdt.2.1 hdt.2.2 hab
      omega

theorem meshFaces_distinct (N : ℕ) (hN : 3 ≤ N) :
    ∀ t ∈ meshFaces N, t.1 ≠ t.2.1 ∧ t.2.1 ≠ t.2.2 ∧ t.2.2 ≠ t.1 := by
  intro t ht
  simp only [meshFaces, List.mem_append, bottomFaces, topFaces, sideFaces,
    List.mem_map, List.mem_flatMap, List.mem_range] at ht
  rcases ht with (⟨k, hk, rfl⟩ | ⟨k, hk, rfl⟩) | ⟨i, hi, hmem⟩
  · dsimp only
    omega
  · dsimp only
    omega
  · have hv : (i + 1) % N = i + 1 ∨ ((i + 1) % N = 0 ∧ i + 1 = N) := by
      rw [succ_mod N i hi]
      split_ifs with h
      · right
        exact ⟨rfl, h⟩
      · left
        rfl
    simp only [List.mem_cons, List.not_mem_nil, or_false] at hmem
    rcases hmem with rfl | rfl <;> dsimp only <;> rcases hv with h | ⟨h, h'⟩ <;> rw [h] <;> omega

theorem ucount_of_occurs (N : ℕ) (hN : 3 ≤ N) (a b : ℕ)
    (t : ℕ × ℕ × ℕ) (ht : t ∈ meshFaces N) (he : triHasEdge t (a, b) = true) :
    ucount N a b = 2 := by
  simp only [meshFaces, List.mem_append, bottomFaces, topFaces, sideFaces,
    List.mem_map, List.mem_flatMap, List.mem_range] at ht
  rcases ht with (⟨k, hk, rfl⟩ | ⟨k, hk, rfl⟩) | ⟨i, hi, hmem⟩
  · simp only [triHasEdge, triSlots, List.any_cons, List.any_nil, Bool.or_false,
      Bool.or_eq_true, beq_iff_eq, Prod.mk.injEq] at he
    rcases he with (⟨rfl, rfl⟩ | ⟨rfl, rfl⟩) | ((⟨rfl, rfl⟩ | ⟨rfl, rfl⟩) | (⟨rfl, rfl⟩ | ⟨rfl, rfl⟩))
    · exact u_B1 N k hN hk
    · rw [ucount_swap]
      exact u_B1 N k hN hk
    · exact u_B2 N k hN hk
    · rw [ucount_swap]
      exact u_B2 N k hN hk
    · exact u_B3 N k hN hk
    · rw [ucount_swap]
      exact u_B3 N k hN hk
  · simp only [triHasEdge, triSlots, List.any_cons, List.any_nil, Bool.or_false,
      Bool.or_eq_true, beq_iff_eq, Prod.mk.injEq] at he
    rcases he with (⟨rfl, rfl⟩ | ⟨rfl, rfl⟩) | ((⟨rfl, rfl⟩ | ⟨rfl, rfl⟩) | (⟨rfl, rfl⟩ | ⟨rfl, rfl⟩))
    · exact u_T1 N k hN hk
    · rw [ucount_swap]
      exact u_T1 N k hN hk
    · exact u_T2 N k hN hk
    · rw [ucount_swap]
      exact u_T2 N k hN hk
    · exact u_T3 N k hN hk
    · rw [ucount_swap]
      exact u_T3 N k hN hk
  · simp only [List.mem_cons, List.not_mem_nil, or_false] at hmem
    rcases hmem with rfl | rfl
    · simp only [triHasEdge, triSlots, List.any_cons, List.any_nil, Bool.or_false,
        Bool.or_eq_true, beq_iff_eq, Prod.mk.injEq] at he
      rcases he with (⟨rfl, rfl⟩ | ⟨rfl, rfl⟩) | ((⟨rfl, rfl⟩ | ⟨rfl, rfl⟩) | (⟨rfl, rfl⟩ | ⟨rfl, rfl⟩))
      · exact u_S1 N i hN hi
      · rw [ucount_swap]
        exact u_S1 N i hN hi
      · exact u_S2 N i hN hi
      · rw [ucount_swap]
        exact u_S2 N i hN hi
      · exact u_S3 N i hN hi
      · rw [ucount_swap]
        exact u_S3 N i hN hi
    · simp only [triHasEdge, triSlots, List.any_cons, List.any_nil, Bool.or_false,
        Bool.or_eq_true, beq_iff_eq, Prod.mk.injEq] at he
      rcases he with (⟨rfl, rfl⟩ | ⟨rfl, rfl⟩) | ((⟨rfl, rfl⟩ | ⟨rfl, rfl⟩) | (⟨rfl, rfl⟩ | ⟨rfl, rfl⟩))
      · exact u_S4 N i hN hi
      · rw [ucount_swap]
        exact u_S4 N i hN hi
      · exact u_S5 N i hN hi
      · rw [ucount_swap]
        exact u_S5 N i hN hi
      · exact u_S6 N i hN hi
      · rw [ucount_swap]
        exact u_S6 N i hN hi

/-- C2. For every ring of N >= 3 vertices and any height, the face list of the
extruded mesh is topologically closed: every undirected edge that occurs in some
triangle of the face list occurs in exactly two triangles of the list. -/
theorem extruded_mesh_closed (ring : List (ℚ × ℚ)) (height : ℚ) (m : Mesh)
    (hm : polygon_to_mesh ring height = some m) (e : ℕ × ℕ)
    (hocc : ∃ t ∈ m.faces, triHasEdge t e = true) :
    m.faces.countP (fun t => triHasEdge t e) = 2 := by
  rw [polygon_to_mesh] at hm
  by_cases hlen : ring.length < 3
  · rw [if_pos hlen] at hm
    exact absurd hm (by simp)
  · rw [if_neg hlen] at hm
    have hm' := Option.some.inj hm
    subst hm'
    obtain ⟨a, b⟩ := e
    obtain ⟨t, ht, he⟩ := hocc
    have hN : 3 ≤ ring.length := by omega
    have hd := meshFaces_distinct ring.length hN t ht
    have hab : a ≠ b := by
      obtain ⟨x, y, z⟩ := t
      dsimp only at hd
      simp only [triHasEdge, triSlots, List.any_cons, List.any_nil, Bool.or_false,
        Bool.or_eq_true, beq_iff_eq, Prod.mk.injEq] at he
      rcases he with (⟨h1, h2⟩ | ⟨h1, h2⟩) | ((⟨h1, h2⟩ | ⟨h1, h2⟩) | (⟨h1, h2⟩ | ⟨h1, h2⟩)) <;>
        omega
    have hbr := countP_triHasEdge_eq (meshFaces ring.length)
      (meshFaces_distinct ring.length hN) a b hab
    show (meshFaces ring.length).countP (fun t => triHasEdge t (a, b)) = 2
    rw [hbr]
    exact ucount_of_occurs ring.length hN a b t ht he

theorem extruded_mesh_closed_witness :
    ∃ m : Mesh, polygon_to_mesh unitSquareRing 7 = some m ∧
      m.faces.countP (fun t => triHasEdge t (0, 1)) = 2 := by
  refine ⟨_, rfl, ?_⟩
  exact extruded_mesh_closed unitSquareRing 7 _ rfl (0, 1) (by decide)



/-! ## Signal Compositor (RSSOverlay.py, overlay_rss_on_building)

The grid and the building image are modelled as functions on cell indices;
the source's cubic-spline resize (Step 4) is the identity when the power grid
and the building image have the same dimensions (zoom factor 1 reproduces the
samples), which is the per-cell correspondence used below. -/

/-- Step 1: total linear power per cell, summed over the transmitter axis. -/
noncomputable def sumPower (T : ℕ) (rss : ℕ → ℕ → ℕ → ℝ) (r c : ℕ) : ℝ :=
  ∑ t ∈ Finset.range T, rss t r c

/-- Step 2: dBm conversion with the 1e-30 floor of
np.where(total == 0, 1e-30, total / 1e-3) inside 10 * log10. -/
noncomputable def dbmOf (p : ℝ) : ℝ :=
  10 * Real.logb 10 (if p = 0 then 1e-30 else p / 1e-3)

/-- vmin of Step 5. -/
noncomputable def vmin : ℝ := -180

/-- vmax of Step 5. -/
noncomputable def vmax : ℝ := -40

/-- Step 5: clip the normalized value to [0,1], map linearly to [100,255] and
truncate to an integer (uint8 cast of a value in [100,255] is the floor). -/
noncomputable def grayOf (dbm : ℝ) : ℤ :=
  ⌊(100 : ℝ) + (255 - 100) * min 1 (max 0 ((dbm - vmin) / (vmax - vmin)))⌋

/-- The pre-mask intensity of a cell. -/
noncomputable def preMaskGray (T : ℕ) (rss : ℕ → ℕ → ℕ → ℝ) (r c : ℕ) : ℤ :=
  grayOf (dbmOf (sumPower T rss r c))

/-- Step 6: building_mask = (building_array == 255). -/
def buildingMask (img : ℕ → ℕ → ℕ) (r c : ℕ) : Bool := img r c == 255

/-- RT.py: a cell is an admissible transmitter location iff it is not masked. -/
def txEligible (img : ℕ → ℕ → ℕ) (r c : ℕ) : Bool := ! buildingMask img r c

/-- The composite image: np.where(building_mask, 0, rss_gray). -/
noncomputable def overlay_rss_on_building (T : ℕ) (rss : ℕ → ℕ → ℕ → ℝ)
    (img : ℕ → ℕ → ℕ) (r c : ℕ) : ℤ :=
  if buildingMask img r c then 0 else preMaskGray T rss r c

theorem grayOf_ge_100 (d : ℝ) : 100 ≤ grayOf d := by
  rw [grayOf, Int.le_floor]
  have h0 : (0 : ℝ) ≤ min 1 (max 0 ((d - vmin) / (vmax - vmin))) :=
    le_min (by norm_num) (le_max_left 0 _)
  push_cast
  nlinarith

theorem grayOf_le_255 (d : ℝ) : grayOf d ≤ 255 := by
  have h1 : min 1 (max 0 ((d - vmin) / (vmax - vmin))) ≤ 1 := min_le_left _ _
  have h2 : (100 : ℝ) + (255 - 100) * min 1 (max 0 ((d - vmin) / (vmax - vmin))) ≤ 255 := by
    nlinarith
  calc grayOf d ≤ ⌊(255 : ℝ)⌋ := Int.floor_le_floor h2
    _ = 255 := by norm_num

theorem grayOf_mono {d1 d2 : ℝ} (h : d1 ≤ d2) : grayOf d1 ≤ grayOf d2 := by
  unfold grayOf
  apply Int.floor_le_floor
  have hc : (0 : ℝ) < vmax - vmin := by norm_num [vmax, vmin]
  have hdiv : (d1 - vmin) / (vmax - vmin) ≤ (d2 - vmin) / (vmax - vmin) :=
    (div_le_div_iff_of_pos_right hc).mpr (by linarith)
  have hmax := max_le_max (le_refl (0 : ℝ)) hdiv
  have hmin := min_le_min (le_refl (1 : ℝ)) hmax
  nlinarith [hmin]

theorem logb10_em30 : Real.logb 10 (1e-30 : ℝ) = -30 := by
  have h : (1e-30 : ℝ) = (10 : ℝ) ^ (-30 : ℝ) := by
    rw [Real.rpow_neg (by norm_num), show ((30 : ℝ) = ((30 : ℕ) : ℝ)) by norm_num,
      Real.rpow_natCast]
    norm_num
  rw [h, Real.logb_rpow (by norm_num) (by norm_num)]

theorem grayOf_dbm_zero : grayOf (dbmOf 0) = 100 := by
  have hd : dbmOf 0 = -300 := by
    rw [dbmOf, if_pos rfl, logb10_em30]
    norm_num
  rw [hd, grayOf]
  have harg : ((-300 : ℝ) - vmin) / (vmax - vmin) = -6 / 7 := by
    norm_num [vmin, vmax]
  rw [harg]
  norm_num

theorem dbm_mono {p q : ℝ} (hp : 0 < p) (hpq : p ≤ q) : dbmOf p ≤ dbmOf q := by
  rw [dbmOf, dbmOf, if_neg (ne_of_gt hp), if_neg (ne_of_gt (lt_of_lt_of_le hp hpq))]
  have h1 : (0 : ℝ) < p / 1e-3 := by positivity
  have h2 : p / 1e-3 ≤ q / 1e-3 := (div_le_div_iff_of_pos_right (by norm_num)).mpr hpq
  have h3 := Real.logb_le_logb_of_le (by norm_num : (1 : ℝ) < 10) h1 h2
  linarith

theorem gray_dbm_mono (p q : ℝ) (hp : 0 ≤ p) (hpq : p ≤ q) :
    grayOf (dbmOf p) ≤ grayOf (dbmOf q) := by
  rcases eq_or_lt_of_le hp with h0 | h0
  · rw [← h0, grayOf_dbm_zero]
    exact grayOf_ge_100 _
  · exact grayOf_mono (dbm_mono h0 hpq)

/-- C3. Every cell the occupancy mask marks as solid structure (pixel value 255)
is assigned the sentinel 0 in the composite, regardless of the signal computed
there. -/
theorem mask_priority (T : ℕ) (rss : ℕ → ℕ → ℕ → ℝ) (img : ℕ → ℕ → ℕ) (r c : ℕ)
    (h : img r c = 255) : overlay_rss_on_building T rss img r c = 0 := by
  simp [overlay_rss_on_building, buildingMask, h]

theorem mask_priority_witness :
    overlay_rss_on_building 1 (fun _ _ _ => 1) (fun _ _ => 255) 0 0 = 0 :=
  mask_priority 1 (fun _ _ _ => 1) (fun _ _ => 255) 0 0 rfl

/-- C4. A cell whose summed linear power is exactly zero is substituted with the
1e-30 floor before the logarithm, and (outside buildings) its composite
intensity is the floor value 100 rather than a log(0) singularity. -/
theorem zero_power_floor (T : ℕ) (rss : ℕ → ℕ → ℕ → ℝ) (img : ℕ → ℕ → ℕ) (r c : ℕ)
    (hz : sumPower T rss r c = 0) (hnb : img r c ≠ 255) :
    overlay_rss_on_building T rss img r c = 100 := by
  rw [overlay_rss_on_building, if_neg (by simp [buildingMask, hnb]), preMaskGray, hz,
    grayOf_dbm_zero]

noncomputable def scenarioCGrid : ℕ → ℕ → ℕ → ℝ :=
  fun _ r c => if r = 0 ∧ c = 0 then 0 else 1e-6

theorem zero_power_floor_witness :
    overlay_rss_on_building 1 scenarioCGrid (fun _ _ => 0) 0 0 = 100 :=
  zero_power_floor 1 scenarioCGrid (fun _ _ => 0) 0 0
    (by simp [sumPower, scenarioCGrid]) (by decide)

/-- C6. Increasing a cell's summed input linear power (with powers nonnegative,
as the PowerGrid invariant requires) never decreases its pre-mask output
intensity. -/
theorem compositor_monotone (T : ℕ) (rss1 rss2 : ℕ → ℕ → ℕ → ℝ) (r c : ℕ)
    (h0 : 0 ≤ sumPower T rss1 r c) (h12 : sumPower T rss1 r c ≤ sumPower T rss2 r c) :
    preMaskGray T rss1 r c ≤ preMaskGray T rss2 r c :=
  gray_dbm_mono _ _ h0 h12

theorem compositor_monotone_witness :
    preMaskGray 1 (fun _ _ _ => 0) 0 0 ≤ preMaskGray 1 (fun _ _ _ => 1) 0 0 :=
  compositor_monotone 1 (fun _ _ _ => 0) (fun _ _ _ => 1) 0 0
    (by simp [sumPower]) (by simp [sumPower])

/-- C10. A mask cell is solid structure iff its grayscale value is exactly 255;
any other value is open space: it receives a signal-band intensity in [100,255]
and is eligible as a transmitter location. -/
theorem mask_threshold (T : ℕ) (rss : ℕ → ℕ → ℕ → ℝ) (img : ℕ → ℕ → ℕ) (r c : ℕ) :
    (buildingMask img r c = true ↔ img r c = 255) ∧
    (img r c ≠ 255 →
      100 ≤ overlay_rss_on_building T rss img r c ∧
        overlay_rss_on_building T rss img r c ≤ 255) ∧
    (txEligible img r c = true ↔ img r c ≠ 255) := by
  refine ⟨by simp [buildingMask], ?_, by simp [txEligible, buildingMask]⟩
  intro hne
  rw [overlay_rss_on_building, if_neg (by simp [buildingMask, hne])]
  exact ⟨grayOf_ge_100 _, grayOf_le_255 _⟩

theorem mask_threshold_witness :
    txEligible (fun _ _ => 254) 0 0 = true ∧
    100 ≤ overlay_rss_on_building 1 (fun _ _ _ => 1) (fun _ _ => 254) 0 0 ∧
    overlay_rss_on_building 1 (fun _ _ _ => 1) (fun _ _ => 254) 0 0 ≤ 255 := by
  obtain ⟨h1, h2, h3⟩ := mask_threshold 1 (fun _ _ _ => 1) (fun _ _ => 254) 0 0
  have hb := h2 (by decide)
  exact ⟨h3.mpr (by decide), hb.1, hb.2⟩



/-! ## Height resolution (osm2xml.py / demo.py, parse_height) -/

/-- osm2xml.py / demo.py parse_height. OSM tag maps are modelled as partial
maps from key to raw string value, and Python float() as a partial parse
function pf (none models a ValueError). -/
def parse_height (pf : String → Option ℚ) (floor_height default_height : ℚ)
    (tags : String → Option String) : ℚ :=
  let levels_or_default :=
    match tags "building:levels" with
    | some s =>
        match pf s with
        | some levels => if 0 < levels then levels * floor_height else default_height
        | none => default_height
    | none => default_height
  match tags "height" with
  | some s =>
      match pf s with
      | some h => if 0 < h then h else levels_or_default
      | none => levels_or_default
  | none => levels_or_default

/-- A rule of the cascade fails when the tag is absent, unparseable, or parses
to a non-positive number. -/
def ruleFails (pf : String → Option ℚ) (v : Option String) : Prop :=
  v = none ∨ (∃ s, v = some s ∧ pf s = none) ∨
    (∃ s x, v = some s ∧ pf s = some x ∧ ¬ 0 < x)

/-- C5. The resolved building height is the explicit height tag when it parses
to a positive number; otherwise the level count times the configured floor
height when that parses to a positive number; otherwise the configured default.
A parse failure or non-positive value at a rule falls through to the next. -/
theorem parse_height_policy (pf : String → Option ℚ) (fh dh : ℚ)
    (tags : String → Option String) :
    (∀ s h, tags "height" = some s → pf s = some h → 0 < h →
        parse_height pf fh dh tags = h) ∧
    (ruleFails pf (tags "height") →
      (∀ s l, tags "building:levels" = some s → pf s = some l → 0 < l →
          parse_height pf fh dh tags = l * fh) ∧
      (ruleFails pf (tags "building:levels") → parse_height pf fh dh tags = dh)) := by
  constructor
  · intro s h hs hp hpos
    rw [parse_height]
    rw [hs]
    simp only [hp, if_pos hpos]
  · intro hfail
    have hgoal : ∀ s l, tags "building:levels" = some s → pf s = some l → 0 < l →
        parse_height pf fh dh tags = l * fh := by
      intro s l hs hp hpos
      rw [parse_height, hs]
      simp only [hp, if_pos hpos]
      rcases hfail with hn | ⟨s', hs', hp'⟩ | ⟨s', x, hs', hp', hx⟩
      · rw [hn]
      · rw [hs']
        simp only [hp']
      · rw [hs']
        simp only [hp', if_neg hx]
    refine ⟨hgoal, ?_⟩
    intro hfail2
    rw [parse_height]
    have hlvl : (match tags "building:levels" with
        | some s =>
            match pf s with
            | some levels => if 0 < levels then levels * fh else dh
            | none => dh
        | none => dh) = dh := by
      rcases hfail2 with hn | ⟨s', hs', hp'⟩ | ⟨s', x, hs', hp', hx⟩
      · rw [hn]
      · rw [hs']
        simp only [hp']
      · rw [hs']
        simp only [hp', if_neg hx]
    rcases hfail with hn | ⟨s', hs', hp'⟩ | ⟨s', x, hs', hp', hx⟩
    · rw [hn]
      exact hlvl
    · rw [hs']
      simp only [hp']
      exact hlvl
    · rw [hs']
      simp only [hp', if_neg hx]
      exact hlvl

/-- Concrete tag map: height unparseable, levels = 4. -/
def tagsA : String → Option String :=
  fun k => if k = "height" then some "tall" else
    if k = "building:levels" then some "4" else none

/-- Concrete parse function for the witness. -/
def pfA : String → Option ℚ := fun s => if s = "4" then some 4 else none

theorem parse_height_policy_witness :
    parse_height pfA 3 20 tagsA = 4 * 3 := by
  have h := (parse_height_policy pfA 3 20 tagsA).2
    (Or.inr (Or.inl ⟨"tall", rfl, rfl⟩))
  exact h.1 "4" 4 rfl rfl (by norm_num)

/-- The k-th vertex of a mesh (out-of-range indices default to the origin). -/
def meshVertex (m : Mesh) (k : ℕ) : ℚ × ℚ × ℚ := m.vertices.getD k (0, 0, 0)

/-- The k-th ring point. -/
def ringPt (ring : List (ℚ × ℚ)) (k : ℕ) : ℚ × ℚ := ring.getD k (0, 0)

def sub3 (u v : ℚ × ℚ × ℚ) : ℚ × ℚ × ℚ :=
  (u.1 - v.1, u.2.1 - v.2.1, u.2.2 - v.2.2)

def cross3 (u v : ℚ × ℚ × ℚ) : ℚ × ℚ × ℚ :=
  (u.2.1 * v.2.2 - u.2.2 * v.2.1, u.2.2 * v.1 - u.1 * v.2.2, u.1 * v.2.1 - u.2.1 * v.1)

def cross2 (u v : ℚ × ℚ) : ℚ := u.1 * v.2 - u.2 * v.1

/-- The (unnormalized) normal of face f of mesh m, with the standard winding
convention: (b - a) x (c - a) for the triangle (a, b, c). -/
def faceNormal (m : Mesh) (f : ℕ × ℕ × ℕ) : ℚ × ℚ × ℚ :=
  cross3 (sub3 (meshVertex m f.2.1) (meshVertex m f.1))
    (sub3 (meshVertex m f.2.2) (meshVertex m f.1))

/-- The unit square traversed clockwise. -/
def cwSquareRing : List (ℚ × ℚ) := [(0, 0), (0, 1), (1, 1), (1, 0)]

/-- C7 counterexample: the claim asserts floor-cap normals point down (-z) with
no precondition on ring orientation, but on the clockwise unit square the first
floor-cap triangle (0,2,1) of the extruded mesh has normal (0,0,1), pointing
up. -/
theorem floor_normal_counterexample :
    ∃ m : Mesh, polygon_to_mesh cwSquareRing 10 = some m ∧
      (0, 2, 1) ∈ bottomFaces cwSquareRing.length ∧
      0 < (faceNormal m (0, 2, 1)).2.2 := by
  refine ⟨_, rfl, by decide, ?_⟩
  norm_num [faceNormal, meshVertex, sub3, cross3, cwSquareRing,
    List.getD_cons_zero, List.getD_cons_succ, List.getD]

def sub2 (u v : ℚ × ℚ) : ℚ × ℚ := (u.1 - v.1, u.2 - v.2)

theorem mesh_vertex_bottom (ring : List (ℚ × ℚ)) (height : ℚ) (m : Mesh)
    (hm : polygon_to_mesh ring height = some m) (k : ℕ) (hk : k < ring.length) :
    meshVertex m k = ((ringPt ring k).1, (ringPt ring k).2, 0) := by
  rw [polygon_to_mesh] at hm
  by_cases h3 : ring.length < 3
  · rw [if_pos h3] at hm
    exact absurd hm (by simp)
  · rw [if_neg h3] at hm
    have hm' := Option.some.inj hm
    subst hm'
    rw [meshVertex, ringPt]
    rw [List.getD_eq_getElem?_getD, List.getD_eq_getElem?_getD, List.getElem?_append,
      if_pos (by simpa using hk), List.getElem?_map, List.getElem?_eq_getElem hk]
    rfl

theorem mesh_vertex_top (ring : List (ℚ × ℚ)) (height : ℚ) (m : Mesh)
    (hm : polygon_to_mesh ring height = some m) (k : ℕ) (hk : k < ring.length) :
    meshVertex m (ring.length + k) = ((ringPt ring k).1, (ringPt ring k).2, height) := by
  rw [polygon_to_mesh] at hm
  by_cases h3 : ring.length < 3
  · rw [if_pos h3] at hm
    exact absurd hm (by simp)
  · rw [if_neg h3] at hm
    have hm' := Option.some.inj hm
    subst hm'
    rw [meshVertex, ringPt]
    rw [List.getD_eq_getElem?_getD, List.getD_eq_getElem?_getD, List.getElem?_append,
      if_neg (by simp), List.getElem?_map]
    have hidx : ring.length + k - (ring.map (fun p => (p.1, p.2, (0 : ℚ)))).length = k := by
      simp
    rw [hidx, List.getElem?_eq_getElem hk]
    rfl

/-- C7 amended. For rings that are counterclockwise and convex as seen from
vertex 0 (every fan triangle (v0, v_k+1, v_k+2) has positive cross product) and
positive height, floor-cap triangle normals point straight down (-z), roof-cap
normals straight up (+z), and each of the two triangles of every side-wall quad
has the outward edge normal (dy, -dx, 0) scaled by the height. -/
theorem extruder_normals (ring : List (ℚ × ℚ)) (height : ℚ) (m : Mesh) (N : ℕ)
    (hlen : ring.length = N) (hN : 3 ≤ N)
    (hm : polygon_to_mesh ring height = some m) (hpos : 0 < height)
    (hccw : ∀ k, k < N - 2 →
      0 < cross2 (sub2 (ringPt ring (k + 1)) (ringPt ring 0))
            (sub2 (ringPt ring (k + 2)) (ringPt ring 0))) :
    (∀ k, k < N - 2 →
      (faceNormal m (0, k + 2, k + 1)).1 = 0 ∧
      (faceNormal m (0, k + 2, k + 1)).2.1 = 0 ∧
      (faceNormal m (0, k + 2, k + 1)).2.2 < 0) ∧
    (∀ k, k < N - 2 →
      (faceNormal m (N, N + k + 1, N + k + 2)).1 = 0 ∧
      (faceNormal m (N, N + k + 1, N + k + 2)).2.1 = 0 ∧
      0 < (faceNormal m (N, N + k + 1, N + k + 2)).2.2) ∧
    (∀ i, i < N →
      faceNormal m (i, (i + 1) % N, N + (i + 1) % N) =
        (height * ((ringPt ring ((i + 1) % N)).2 - (ringPt ring i).2),
         -(height * ((ringPt ring ((i + 1) % N)).1 - (ringPt ring i).1)), 0) ∧
      faceNormal m (i, N + (i + 1) % N, N + i) =
        (height * ((ringPt ring ((i + 1) % N)).2 - (ringPt ring i).2),
         -(height * ((ringPt ring ((i + 1) % N)).1 - (ringPt ring i).1)), 0)) := by
  subst hlen
  have hB := mesh_vertex_bottom ring height m hm
  have hT := mesh_vertex_top ring height m hm
  have hT0 : meshVertex m ring.length = ((ringPt ring 0).1, (ringPt ring 0).2, height) := by
    have h := hT 0 (by omega)
    rwa [Nat.add_zero] at h
  refine ⟨?_, ?_, ?_⟩
  · intro k hk
    have hcc := hccw k hk
    rw [cross2, sub2, sub2] at hcc
    dsimp only at hcc
    rw [faceNormal]
    dsimp only
    rw [hB 0 (by omega), hB (k + 2) (by omega), hB (k + 1) (by omega)]
    simp only [cross3, sub3]
    refine ⟨by ring, by ring, by linarith [hcc]⟩
  · intro k hk
    have hcc := hccw k hk
    rw [cross2, sub2, sub2] at hcc
    dsimp only at hcc
    rw [faceNormal]
    dsimp only
    have e1 : ring.length + k + 1 = ring.length + (k + 1) := by omega
    have e2 : ring.length + k + 2 = ring.length + (k + 2) := by omega
    rw [e1, e2, hT (k + 1) (by omega), hT (k + 2) (by omega), hT0]
    simp only [cross3, sub3]
    refine ⟨by ring, by ring, by linarith [hcc]⟩
  · intro i hi
    have hj : (i + 1) % ring.length < ring.length := Nat.mod_lt _ (by omega)
    constructor
    · rw [faceNormal]
      dsimp only
      rw [hB i hi, hB ((i + 1) % ring.length) hj, hT ((i + 1) % ring.length) hj]
      simp only [cross3, sub3, Prod.mk.injEq]
      refine ⟨by ring, by ring, by ring⟩
    · rw [faceNormal]
      dsimp only
      rw [hB i hi, hT ((i + 1) % ring.length) hj, hT i hi]
      simp only [cross3, sub3, Prod.mk.injEq]
      refine ⟨by ring, by ring, by ring⟩

theorem extruder_normals_witness :
    ∃ m : Mesh, polygon_to_mesh unitSquareRing 10 = some m ∧
      (faceNormal m (0, 2, 1)).2.2 < 0 ∧ 0 < (faceNormal m (4, 5, 6)).2.2 := by
  have hccw : ∀ k, k < 4 - 2 →
      0 < cross2 (sub2 (ringPt unitSquareRing (k + 1)) (ringPt unitSquareRing 0))
        (sub2 (ringPt unitSquareRing (k + 2)) (ringPt unitSquareRing 0)) := by
    intro k hk
    interval_cases k <;>
      norm_num [cross2, sub2, ringPt, unitSquareRing, List.getD_cons_zero, List.getD_cons_succ]
  refine ⟨_, rfl, ?_, ?_⟩
  · exact ((extruder_normals unitSquareRing 10 _ 4 rfl (by norm_num) rfl (by norm_num)
      hccw).1 0 (by norm_num)).2.2
  · exact ((extruder_normals unitSquareRing 10 _ 4 rfl (by norm_num) rfl (by norm_num)
      hccw).2.1 0 (by norm_num)).2.2

/-! ## Footprint Clipper (osm2xml.py, process_single_file, lines 163-194) -/

/-- A polygon as returned by the geometry library: a closed exterior ring
(first point repeated at the end, as in shapely's coords) plus any interior
rings (holes). -/
structure SPoly where
  exterior : List (ℚ × ℚ)
  interiors : List (List (ℚ × ℚ))
deriving DecidableEq

/-- The per-part extraction of process_single_file:
coords = list(part.exterior.coords)[:-1]; kept only when len(coords) >= 3.
Interior rings are never consulted. -/
def extractPart (height : ℚ) (p : SPoly) : Option (List (ℚ × ℚ) × ℚ) :=
  let coords := p.exterior.dropLast
  if 3 ≤ coords.length then some (coords, height) else none

/-- The clipping loop over all translated buildings. The geometry-library
composite (Polygon construction, buffer(0) repair and intersection with the
clip square) is a parameter inter returning the list of polygon parts:
[] models an empty geometry, a singleton a Polygon, several parts a
MultiPolygon. -/
def clipBuildings (inter : List (ℚ × ℚ) → List SPoly)
    (bs : List (List (ℚ × ℚ) × ℚ)) : List (List (ℚ × ℚ) × ℚ) :=
  bs.flatMap fun vh => (inter vh.1).filterMap (extractPart vh.2)

/-- One directed edge per ring vertex, wrapping around. -/
def ringEdges (ring : List (ℚ × ℚ)) : List ((ℚ × ℚ) × (ℚ × ℚ)) :=
  ring.zip (ring.rotate 1)

/-- Even-odd ray-crossing test for a horizontal ray to the right of p. -/
def crossesRay (p : ℚ × ℚ) (e : (ℚ × ℚ) × (ℚ × ℚ)) : Bool :=
  (decide (p.2 < e.1.2) != decide (p.2 < e.2.2)) &&
    decide (p.1 < e.1.1 + (p.2 - e.1.2) * (e.2.1 - e.1.1) / (e.2.2 - e.1.2))

/-- Even-odd point-in-polygon test. -/
def inPolygon (ring : List (ℚ × ℚ)) (p : ℚ × ℚ) : Bool :=
  ((ringEdges ring).countP (crossesRay p)) % 2 == 1

/-- Membership in the clip square [0, S] x [0, S]. -/
def inClipSquare (S : ℚ) (p : ℚ × ℚ) : Prop :=
  0 ≤ p.1 ∧ p.1 ≤ S ∧ 0 ≤ p.2 ∧ p.2 ≤ S

/-- The translated footprint lies entirely outside the clip square. -/
def EntirelyOutside (S : ℚ) (ring : List (ℚ × ℚ)) : Prop :=
  ∀ p : ℚ × ℚ, inPolygon ring p = true → ¬ inClipSquare S p

/-- C8. If a translated footprint lies entirely outside the clip square and the
geometry library meets the spec's contract that intersecting such a polygon
with the square is empty, the Clipper emits no ClippedFootprint for it and the
remaining footprints are processed unchanged. -/
theorem clip_drops_outside (S : ℚ) (inter : List (ℚ × ℚ) → List SPoly)
    (hcontract : ∀ r, EntirelyOutside S r → inter r = [])
    (ring : List (ℚ × ℚ)) (h : ℚ) (hout : EntirelyOutside S ring)
    (pre post : List (List (ℚ × ℚ) × ℚ)) :
    clipBuildings inter (pre ++ (ring, h) :: post) =
      clipBuildings inter pre ++ clipBuildings inter post := by
  simp only [clipBuildings, List.flatMap_append, List.flatMap_cons]
  rw [hcontract ring hout]
  simp

/-- A ring all of whose vertices lie strictly above the square cannot contain
a point of the square: no edge crosses a horizontal ray through such a point. -/
theorem entirelyOutside_of_above (S : ℚ) (ring : List (ℚ × ℚ))
    (h : ∀ q ∈ ring, S < q.2) : EntirelyOutside S ring := by
  intro p hp hin
  have hz : (ringEdges ring).countP (crossesRay p) = 0 := by
    rw [List.countP_eq_zero]
    intro e he
    have h1 : e.1 ∈ ring := by
      obtain ⟨a, b⟩ := e
      exact (List.of_mem_zip he).1
    have h2 : e.2 ∈ ring := by
      obtain ⟨a, b⟩ := e
      exact (List.mem_rotate).mp (List.of_mem_zip he).2
    have d1 : p.2 < e.1.2 := lt_of_le_of_lt hin.2.2.2 (h e.1 h1)
    have d2 : p.2 < e.2.2 := lt_of_le_of_lt hin.2.2.2 (h e.2 h2)
    simp [crossesRay, d1, d2]
  rw [inPolygon, hz] at hp
  simp at hp

/-- Footprint entirely above the default 256-square. -/
def outsideRing : List (ℚ × ℚ) := [(0, 300), (10, 300), (10, 310), (0, 310)]

theorem clip_drops_outside_witness :
    clipBuildings (fun _ => []) ([([(1, 1), (2, 1), (2, 2)], 5)] ++ (outsideRing, 20) :: []) =
      clipBuildings (fun _ => []) [([(1, 1), (2, 1), (2, 2)], 5)] ++
        clipBuildings (fun _ => []) [] :=
  clip_drops_outside 256 (fun _ => []) (fun _ _ => rfl) outsideRing 20
    (entirelyOutside_of_above 256 outsideRing (by decide)) _ _

/-- C9. The Clipper keeps only the exterior ring of each intersection part:
the output is unchanged if every part's interior rings (holes) are deleted, and
every emitted ClippedFootprint is exactly some part's exterior ring (closing
vertex dropped) with the inherited height. -/
theorem clip_discards_holes (parts : List SPoly) (h : ℚ) :
    parts.filterMap (extractPart h) =
      (parts.map (fun p => SPoly.mk p.exterior [])).filterMap (extractPart h) ∧
    ∀ e ∈ parts.filterMap (extractPart h),
      ∃ p ∈ parts, e = (p.exterior.dropLast, h) ∧ 3 ≤ p.exterior.dropLast.length := by
  constructor
  · rw [List.filterMap_map]
    rfl
  · intro e he
    obtain ⟨p, hp, hext⟩ := List.mem_filterMap.mp he
    rw [extractPart] at hext
    by_cases hlen : 3 ≤ p.exterior.dropLast.length
    · rw [if_pos hlen] at hext
      exact ⟨p, hp, (Option.some.inj hext).symm, hlen⟩
    · rw [if_neg hlen] at hext
      exact absurd hext (by simp)

/-- A clipped part with a courtyard hole, for the C9 witness. -/
def partWithHole : SPoly :=
  { exterior := [(0, 0), (4, 0), (4, 4), (0, 4), (0, 0)]
    interiors := [[(1, 1), (2, 1), (2, 2), (1, 2), (1, 1)]] }

theorem clip_discards_holes_witness :
    [partWithHole].filterMap (extractPart 20) =
      ([partWithHole].map (fun p => SPoly.mk p.exterior [])).filterMap (extractPart 20) ∧
    [partWithHole].filterMap (extractPart 20) =
      [([(0, 0), (4, 0), (4, 4), (0, 4)], 20)] := by
  refine ⟨(clip_discards_holes [partWithHole] 20).1, by decide⟩

end RT
